import Mathlib

/-!
Verification development for the Privacy Risk & Forensic Timeline Analyzer
(`src/risk_analyzer.py` of the Metadata-Analyzer repository).

The Python module is shallowly embedded: metadata maps become ordered
association lists over an inductive `Value` type, Python `datetime` objects
become the `DT` structure, and every operation of the analyzer is translated
into an executable Lean function.  Operations that can raise an exception to
their caller in Python (sorting a timeline that mixes timezone-aware and
naive datetimes raises `TypeError`) return `Except Unit`.
-/

namespace MetaAnalyzer

/-- ASCII decimal digit test (the character class `\d` used by the Python
regular expressions in the source, restricted to ASCII). -/
def isDigitCh (c : Char) : Bool := 48 ≤ c.toNat && c.toNat ≤ 57

/-- Whitespace test modelling the character class `\s` and `str.strip`
(restricted to the common ASCII whitespace characters). -/
def isWsCh (c : Char) : Bool := c = ' ' || c = '\t' || c = '\n' || c = '\r'

/-- Numeric value of a decimal digit character. -/
def dv (c : Char) : Nat := c.toNat - 48

/-- The decimal digit character for a value below ten. -/
def digitCh : Nat → Char
  | 0 => '0' | 1 => '1' | 2 => '2' | 3 => '3' | 4 => '4'
  | 5 => '5' | 6 => '6' | 7 => '7' | 8 => '8' | _ => '9'

/-- Two-digit zero-padded rendering, as produced by `datetime.isoformat`. -/
def pad2 (n : Nat) : List Char := [digitCh (n / 10), digitCh (n % 10)]

/-- Four-digit zero-padded rendering of a year. -/
def pad4 (n : Nat) : List Char :=
  [digitCh (n / 1000), digitCh (n / 100 % 10), digitCh (n / 10 % 10), digitCh (n % 10)]

/-- Prefix test on character lists (used to implement the Python substring
operator `in`). -/
def leadsWith : List Char → List Char → Bool
  | [], _ => true
  | _ :: _, [] => false
  | a :: as, b :: bs => a = b && leadsWith as bs

/-- Python substring containment `needle in hay`. -/
def strContains (hay needle : String) : Bool :=
  hay.data.tails.any fun t => leadsWith needle.data t

/-- Python `str.strip()` on a character list. -/
def stripChars (cs : List Char) : List Char :=
  ((cs.dropWhile isWsCh).reverse.dropWhile isWsCh).reverse

/-- Python `str.strip()`. -/
def pyStrip (s : String) : String := String.mk (stripChars s.data)

/-- A single apostrophe, as used by the f-string of the anomaly message. -/
def sq : String := String.mk [Char.ofNat 39]

/-- Opening curly brace character (for the text of Python `str(dict)`). -/
def obr : String := String.mk [Char.ofNat 123]

/-- Closing curly brace character (for the text of Python `str(dict)`). -/
def cbr : String := String.mk [Char.ofNat 125]

/-- ASCII lower-casing of one character (`str.lower` restricted to the
ASCII range, which covers every keyword the analyzer matches). -/
def lowerCh (c : Char) : Char :=
  if 65 <= c.toNat ∧ c.toNat <= 90 then Char.ofNat (c.toNat + 32) else c

/-- Python `str.lower()` (ASCII). -/
def pyLower (s : String) : String := String.mk (s.data.map lowerCh)

/-- Split a character list at every delimiter character (the effect of
`re.split` over a one-character-class pattern; runs of delimiters produce
empty parts, discarded downstream exactly as in the source). -/
def splitChars (p : Char → Bool) : List Char → List (List Char)
  | [] => [[]]
  | c :: rest =>
    match splitChars p rest with
    | [] => [[]]
    | g :: gs => if p c then [] :: g :: gs else (c :: g) :: gs

/-- Gregorian leap-year test (as used by Python `datetime`). -/
def isLeap (y : Nat) : Bool := y % 4 = 0 && (y % 100 ≠ 0 || y % 400 = 0)

/-- Days in a month of the proleptic Gregorian calendar. -/
def daysInMonth (y m : Nat) : Nat :=
  if m = 2 then (if isLeap y then 29 else 28)
  else if m = 4 || m = 6 || m = 9 || m = 11 then 30
  else 31

/-- Python `datetime.datetime` restricted to whole seconds: a naive or
timezone-aware wall-clock timestamp.  `tz` is the UTC offset in minutes
(`none` for a naive datetime). -/
structure DT where
  year : Nat
  month : Nat
  day : Nat
  hour : Nat
  minute : Nat
  second : Nat
  tz : Option Int
deriving DecidableEq, Repr

/-- Field validity exactly as enforced by the `datetime.datetime` constructor
(year 1..9999, valid calendar day, time of day in range, offset below one
day in magnitude). -/
def DT.valid (d : DT) : Bool :=
  1 ≤ d.year && d.year ≤ 9999 && 1 ≤ d.month && d.month ≤ 12 &&
  1 ≤ d.day && d.day ≤ daysInMonth d.year d.month &&
  d.hour ≤ 23 && d.minute ≤ 59 && d.second ≤ 59 &&
  (match d.tz with
   | none => true
   | some off => off.natAbs ≤ 23 * 60 + 59)

/-- Smart constructor: the validation performed by `datetime.datetime(...)`;
returns `none` where Python raises `ValueError`. -/
def mkValidDT (y mo da h mi s : Nat) (tz : Option Int) : Option DT :=
  let d : DT := ⟨y, mo, da, h, mi, s, tz⟩
  if d.valid then some d else none

/-- Days since 1970-01-01 of a proleptic Gregorian date (Howard Hinnant
`days_from_civil` algorithm, valid for truncating integer division). -/
def daysFromCivil (y m d : Int) : Int :=
  let y := if m ≤ 2 then y - 1 else y
  let era := (if 0 ≤ y then y else y - 399) / 400
  let yoe := y - era * 400
  let mp := (m + 9) % 12
  let doy := (153 * mp + 2) / 5 + d - 1
  let doe := yoe * 365 + yoe / 4 - yoe / 100 + doy
  era * 146097 + doe - 719468

/-- Sort/compare key of a datetime: seconds since the epoch for aware values
(Python compares aware datetimes by instant), wall-clock seconds for naive
values (Python compares naive datetimes field-lexicographically, which on
valid fields coincides with this key).  Naive and aware values are never
compared to each other (Python raises `TypeError`); the key is only used
within one class. -/
def dtKey (d : DT) : Int :=
  daysFromCivil d.year d.month d.day * 86400 +
    (d.hour * 3600 + d.minute * 60 + d.second : Nat) - (d.tz.getD 0) * 60

/-- Whether the datetime is timezone-aware. -/
def DT.aware (d : DT) : Bool := d.tz.isSome

/-- The character list of Python `str(datetime)` (equivalently
`datetime.isoformat(sep=" ")` for whole-second values): always
`YYYY-MM-DD HH:MM:SS`, followed by `±HH:MM` when the value is aware. -/
def tzChars : Option Int → List Char
  | none => []
  | some off =>
    (if 0 ≤ off then '+' else '-') :: (pad2 (off.natAbs / 60) ++ ':' :: pad2 (off.natAbs % 60))

/-- Rendered characters of `str(datetime)`. -/
def renderChars (d : DT) : List Char :=
  pad4 d.year ++ '-' :: (pad2 d.month ++ '-' :: (pad2 d.day ++ ' ' ::
    (pad2 d.hour ++ ':' :: (pad2 d.minute ++ ':' :: (pad2 d.second ++ tzChars d.tz)))))

/-- Python `str(datetime)`. -/
def renderDT (d : DT) : String := String.mk (renderChars d)

/-- A metadata value: the value shapes the spec describes for the `Any`
slots of the metadata map (text, number, datetime, nested structure) plus
Python `None`. -/
inductive Value where
  | nil : Value
  | str : String → Value
  | int : Int → Value
  | dt : DT → Value
  | nested : List (String × Value) → Value

/-- Comma-separated argument text of `repr(datetime)` (digits only; the
precise text is irrelevant to the analyzer, which only substring-matches
lower-case keywords against it). -/
def dtArgs (d : DT) : String :=
  Nat.repr d.year ++ ", " ++ Nat.repr d.month ++ ", " ++ Nat.repr d.day ++ ", " ++
    Nat.repr d.hour ++ ", " ++ Nat.repr d.minute ++ ", " ++ Nat.repr d.second

mutual

/-- Python `repr(value)` for the supported value shapes (string escaping is
not modelled: metadata text is taken to be quote-free). -/
def pyRepr : Value → String
  | .nil => "None"
  | .str s => sq ++ s ++ sq
  | .int n => toString n
  | .dt d => "datetime.datetime(" ++ dtArgs d ++ ")"
  | .nested items => obr ++ pyReprItems items ++ cbr

/-- Source: `repr` of the items of a Python dict literal. -/
def pyReprItems : List (String × Value) → String
  | [] => ""
  | p :: rest =>
    sq ++ p.1 ++ sq ++ ": " ++ pyRepr p.2 ++
      (if rest.isEmpty then "" else ", ") ++ pyReprItems rest

end

/-- Python `str(value)` for the supported value shapes. -/
def pyStr : Value → String
  | .nil => "None"
  | .str s => s
  | .int n => toString n
  | .dt d => renderDT d
  | .nested items => pyRepr (.nested items)

/-- Source: `text.replace("Z", "+00:00").replace("/", "-")` in
`_parse_datetime`.  For one-character needles Python `str.replace` rewrites
every occurrence left to right, which is this character-wise pass; the two
passes commute into one because the replacement text `+00:00` contains no
`/`. -/
def normChars (cs : List Char) : List Char :=
  cs.flatMap fun c =>
    if c = 'Z' then ['+', '0', '0', ':', '0', '0']
    else if c = '/' then ['-'] else [c]

/-- The normalization step of `_parse_datetime`. -/
def normalize (s : String) : String := String.mk (normChars s.data)

/-- Test of the EXIF-style pattern `^\d{4}:\d{2}:\d{2}\s+\d{2}:\d{2}:\d{2}$`
(`re.match` ... `$`: the whole text must match). -/
def exifShape (cs : List Char) : Bool :=
  match cs with
  | a :: b :: c :: d :: p :: e :: f :: q :: g :: h :: rest =>
    isDigitCh a && isDigitCh b && isDigitCh c && isDigitCh d && p = ':' &&
    isDigitCh e && isDigitCh f && q = ':' && isDigitCh g && isDigitCh h &&
    (let ws := rest.takeWhile isWsCh
     let tl := rest.dropWhile isWsCh
     !ws.isEmpty &&
     (match tl with
      | t1 :: t2 :: r1 :: t3 :: t4 :: r2 :: t5 :: t6 :: [] =>
        isDigitCh t1 && isDigitCh t2 && r1 = ':' && isDigitCh t3 && isDigitCh t4 &&
        r2 = ':' && isDigitCh t5 && isDigitCh t6
      | _ => false))
  | _ => false

/-- Source: `normalized.replace(":", "-", 2)` — replace the first two colons
with dashes. -/
def replaceColons : Nat → List Char → List Char
  | _, [] => []
  | 0, cs => cs
  | Nat.succ k, c :: cs =>
    if c = ':' then '-' :: replaceColons k cs else c :: replaceColons (Nat.succ k) cs

/-- End of ISO parsing: either the end of the text or a `±HH:MM` UTC offset.
Models `datetime.fromisoformat` (restricted to the extended ISO format
without fractional seconds, the only shapes reachable in this development). -/
def parseIsoEnd (y mo da h mi s : Nat) : List Char → Option DT
  | [] => mkValidDT y mo da h mi s none
  | sgn :: o1 :: o2 :: r :: o3 :: o4 :: rest =>
    if (sgn = '+' || sgn = '-') && isDigitCh o1 && isDigitCh o2 && r = ':' &&
        isDigitCh o3 && isDigitCh o4 && rest.isEmpty then
      let oh := dv o1 * 10 + dv o2
      let om := dv o3 * 10 + dv o4
      if oh ≤ 23 && om ≤ 59 then
        mkValidDT y mo da h mi s
          (some (if sgn = '-' then -((oh * 60 + om : Nat) : Int) else ((oh * 60 + om : Nat) : Int)))
      else none
    else none
  | _ => none

/-- Optional `:SS` seconds component followed by the ISO tail. -/
def parseIsoSec (y mo da h mi : Nat) : List Char → Option DT
  | r :: s1 :: s2 :: rest =>
    if r = ':' then
      if isDigitCh s1 && isDigitCh s2 then
        parseIsoEnd y mo da h mi (dv s1 * 10 + dv s2) rest
      else none
    else parseIsoEnd y mo da h mi 0 (r :: s1 :: s2 :: rest)
  | rest => parseIsoEnd y mo da h mi 0 rest

/-- Source: `HH:MM` time component followed by the ISO tail. -/
def parseIsoTime (y mo da : Nat) : List Char → Option DT
  | h1 :: h2 :: r :: m1 :: m2 :: rest =>
    if isDigitCh h1 && isDigitCh h2 && r = ':' && isDigitCh m1 && isDigitCh m2 then
      parseIsoSec y mo da (dv h1 * 10 + dv h2) (dv m1 * 10 + dv m2) rest
    else none
  | _ => none

/-- Source: `YYYY-MM-DD` date, optionally followed by a `T`- or space-separated
time.  Models `datetime.fromisoformat`. -/
def parseIsoChars : List Char → Option DT
  | y1 :: y2 :: y3 :: y4 :: p :: m1 :: m2 :: q :: d1 :: d2 :: rest =>
    if isDigitCh y1 && isDigitCh y2 && isDigitCh y3 && isDigitCh y4 && p = '-' &&
        isDigitCh m1 && isDigitCh m2 && q = '-' && isDigitCh d1 && isDigitCh d2 then
      let y := dv y1 * 1000 + dv y2 * 100 + dv y3 * 10 + dv y4
      let mo := dv m1 * 10 + dv m2
      let da := dv d1 * 10 + dv d2
      match rest with
      | [] => mkValidDT y mo da 0 0 0 none
      | sep :: t => if sep = 'T' || sep = ' ' then parseIsoTime y mo da t else none
    else none
  | _ => none

/-- Read exactly two decimal digits. -/
def num2 : List Char → Option (Nat × List Char)
  | a :: b :: rest =>
    if isDigitCh a && isDigitCh b then some (dv a * 10 + dv b, rest) else none
  | _ => none

/-- Read exactly one decimal digit. -/
def num1 : List Char → Option (Nat × List Char)
  | a :: rest => if isDigitCh a then some (dv a, rest) else none
  | _ => none

/-- Read exactly four decimal digits (`strptime` directive `%Y`). -/
def num4 : List Char → Option (Nat × List Char)
  | a :: b :: c :: d :: rest =>
    if isDigitCh a && isDigitCh b && isDigitCh c && isDigitCh d then
      some (dv a * 1000 + dv b * 100 + dv c * 10 + dv d, rest)
    else none
  | _ => none

/-- A one-or-two digit `strptime` field (`%m`, `%d`, `%H`, `%M`, `%S`) with
regex-alternation backtracking: the two-digit reading is tried first, and if
the remainder of the format fails, the one-digit reading.  The syntactic
range limits of the CPython alternations are subsumed here by the field
validation in `mkValidDT` together with the literal separators of the six
formats, which a leftover digit can never match. -/
def num12 (cs : List Char) (k : Nat → List Char → Option DT) : Option DT :=
  ((num2 cs).bind fun p => k p.1 p.2) <|> ((num1 cs).bind fun p => k p.1 p.2)

/-- Match one literal character of a `strptime` format. -/
def lit (c : Char) : List Char → Option (List Char)
  | a :: rest => if a = c then some rest else none
  | [] => none

/-- Whitespace in a `strptime` format matches one or more whitespace
characters. -/
def ws1 : List Char → Option (List Char)
  | c :: rest => if isWsCh c then some (rest.dropWhile isWsCh) else none
  | [] => none

/-- Source: `strptime` with format `%Y-%m-%d %H:%M:%S` (full match required). -/
def fmtYmdHms (cs : List Char) : Option DT :=
  (num4 cs).bind fun (y, cs) =>
  (lit '-' cs).bind fun cs =>
  num12 cs fun mo cs =>
  (lit '-' cs).bind fun cs =>
  num12 cs fun da cs =>
  (ws1 cs).bind fun cs =>
  num12 cs fun h cs =>
  (lit ':' cs).bind fun cs =>
  num12 cs fun mi cs =>
  (lit ':' cs).bind fun cs =>
  num12 cs fun s cs =>
  if cs.isEmpty then mkValidDT y mo da h mi s none else none

/-- Source: `strptime` with format `%Y-%m-%d %H:%M`. -/
def fmtYmdHm (cs : List Char) : Option DT :=
  (num4 cs).bind fun (y, cs) =>
  (lit '-' cs).bind fun cs =>
  num12 cs fun mo cs =>
  (lit '-' cs).bind fun cs =>
  num12 cs fun da cs =>
  (ws1 cs).bind fun cs =>
  num12 cs fun h cs =>
  (lit ':' cs).bind fun cs =>
  num12 cs fun mi cs =>
  if cs.isEmpty then mkValidDT y mo da h mi 0 none else none

/-- Source: `strptime` with format `%d-%m-%Y %H:%M:%S`. -/
def fmtDmYHms (cs : List Char) : Option DT :=
  num12 cs fun da cs =>
  (lit '-' cs).bind fun cs =>
  num12 cs fun mo cs =>
  (lit '-' cs).bind fun cs =>
  (num4 cs).bind fun (y, cs) =>
  (ws1 cs).bind fun cs =>
  num12 cs fun h cs =>
  (lit ':' cs).bind fun cs =>
  num12 cs fun mi cs =>
  (lit ':' cs).bind fun cs =>
  num12 cs fun s cs =>
  if cs.isEmpty then mkValidDT y mo da h mi s none else none

/-- Source: `strptime` with format `%d-%m-%Y %H:%M`. -/
def fmtDmYHm (cs : List Char) : Option DT :=
  num12 cs fun da cs =>
  (lit '-' cs).bind fun cs =>
  num12 cs fun mo cs =>
  (lit '-' cs).bind fun cs =>
  (num4 cs).bind fun (y, cs) =>
  (ws1 cs).bind fun cs =>
  num12 cs fun h cs =>
  (lit ':' cs).bind fun cs =>
  num12 cs fun mi cs =>
  if cs.isEmpty then mkValidDT y mo da h mi 0 none else none

/-- Source: `strptime` with format `%Y-%m-%d`. -/
def fmtYmd (cs : List Char) : Option DT :=
  (num4 cs).bind fun (y, cs) =>
  (lit '-' cs).bind fun cs =>
  num12 cs fun mo cs =>
  (lit '-' cs).bind fun cs =>
  num12 cs fun da cs =>
  if cs.isEmpty then mkValidDT y mo da 0 0 0 none else none

/-- Source: `strptime` with format `%d-%m-%Y`. -/
def fmtDmY (cs : List Char) : Option DT :=
  num12 cs fun da cs =>
  (lit '-' cs).bind fun cs =>
  num12 cs fun mo cs =>
  (lit '-' cs).bind fun cs =>
  (num4 cs).bind fun (y, cs) =>
  if cs.isEmpty then mkValidDT y mo da 0 0 0 none else none

/-- The trial loop of `_parse_datetime`: `fromisoformat` first, then the six
explicit formats, returning the first success (each failure is swallowed by
the `try`/`except`). -/
def tryFormats (cs : List Char) : Option DT :=
  parseIsoChars cs <|> fmtYmdHms cs <|> fmtYmdHm cs <|> fmtDmYHms cs <|>
    fmtDmYHm cs <|> fmtYmd cs <|> fmtDmY cs

/-- Source: `PrivacyForensicAnalyzer._parse_datetime`. -/
def parse_datetime (v : Value) : Option DT :=
  match v with
  | .nil => none
  | .dt d => some d
  | _ =>
    let text := pyStrip (pyStr v)
    if text = "" then none
    else
      let n := normChars text.data
      let n := if exifShape n then replaceColons 2 n else n
      tryFormats n

/-- A metadata map: ordered key/value pairs, as iterated by a Python dict. -/
abbrev Metadata := List (String × Value)

/-- Decidable equality on `Except`, used to evaluate concrete runs. -/
instance {e a : Type _} [DecidableEq e] [DecidableEq a] : DecidableEq (Except e a) := fun x y =>
  match x, y with
  | .error u, .error v =>
    if h : u = v then .isTrue (by rw [h]) else .isFalse fun hc => by cases hc; exact h rfl
  | .error _, .ok _ => .isFalse fun hc => by cases hc
  | .ok _, .error _ => .isFalse fun hc => by cases hc
  | .ok u, .ok v =>
    if h : u = v then .isTrue (by rw [h]) else .isFalse fun hc => by cases hc; exact h rfl

/-- A timestamp candidate triple `(str(key), str(value), dt_obj)` of
`build_timeline`. -/
structure Cand where
  event : String
  raw : String
  dtv : DT
deriving DecidableEq

/-- An output timeline entry: only the label and the raw timestamp text
remain after `build_timeline` pops the `datetime` field. -/
structure TimelineEvent where
  event : String
  timestamp : String
deriving DecidableEq, Repr

/-- The key hints of `_extract_timestamp_candidates`. -/
def key_hints : List String :=
  ["capture", "created", "creation", "modified", "edit", "timestamp", "date",
   "time", "last saved"]

/-- Source: `PrivacyForensicAnalyzer._extract_timestamp_candidates`. -/
def extract_timestamp_candidates (metadata : Metadata) : List Cand :=
  metadata.filterMap fun p =>
    if key_hints.any fun h => strContains (pyLower p.1) h then
      (parse_datetime p.2).map fun d => ⟨p.1, pyStr p.2, d⟩
    else none

/-- The candidate list after the fallback step of `build_timeline`: when the
metadata yields no candidate and a fallback map is given, every fallback
entry whose value parses becomes a candidate. -/
def timeline_candidates (metadata : Metadata) (fallback : Option Metadata) : List Cand :=
  let candidates := extract_timestamp_candidates metadata
  if candidates.isEmpty then
    match fallback with
    | some fb => fb.filterMap fun p => (parse_datetime p.2).map fun d => ⟨p.1, pyStr p.2, d⟩
    | none => candidates
  else candidates

/-- Stable insert for insertion sort by the datetime key: the new element
goes before the first element it is `≤`, hence before equal keys that came
later in the input. -/
def ordInsert (x : Cand) : List Cand → List Cand
  | [] => [x]
  | y :: ys => if dtKey x.dtv ≤ dtKey y.dtv then x :: y :: ys else y :: ordInsert x ys

/-- Stable insertion sort by the datetime key; on lists whose datetimes all
share one awareness class this computes exactly the ascending stable sort
performed by `timeline.sort(key=lambda item: item["datetime"])`. -/
def insSort : List Cand → List Cand
  | [] => []
  | x :: xs => ordInsert x (insSort xs)

/-- Source: `timeline.sort(...)` with datetime keys: CPython raises `TypeError` as
soon as a naive and an aware datetime are compared, which happens exactly
when the list has two or more elements of mixed awareness; otherwise the
sort is the ascending stable sort by the key. -/
def pySortCands (l : List Cand) : Except Unit (List Cand) :=
  if 2 ≤ l.length ∧ (l.any fun c => c.dtv.aware) ∧ (l.any fun c => !c.dtv.aware) then
    .error ()
  else .ok (insSort l)

/-- Source: `PrivacyForensicAnalyzer.build_timeline` (net effect: the transient
`datetime` dict field used for sorting is popped before returning). -/
def build_timeline (metadata : Metadata) (fallback : Option Metadata) :
    Except Unit (List TimelineEvent) := do
  let sorted ← pySortCands (timeline_candidates metadata fallback)
  .ok (sorted.map fun c => ⟨c.event, c.raw⟩)

/-- The f-string `f"Timestamp mismatch: '{curr}' occurs before '{prev}'."`. -/
def mismatchMsg (curr prev : String) : String :=
  "Timestamp mismatch: " ++ sq ++ curr ++ sq ++ " occurs before " ++ sq ++ prev ++ sq ++ "."

/-- The pairwise walk of `detect_anomalies` over re-parsed timeline entries:
the first strictly-earlier successor emits one message and stops (`break`);
comparing a naive with an aware datetime raises `TypeError`. -/
def firstMismatch : List (String × DT) → Except Unit (List String)
  | p :: q :: rest =>
    if q.2.aware = p.2.aware then
      if dtKey q.2 < dtKey p.2 then .ok [mismatchMsg q.1 p.1]
      else firstMismatch (q :: rest)
    else .error ()
  | _ => .ok []

/-- The out-of-order-timestamp step of `detect_anomalies`: skipped for
timelines shorter than two events; otherwise each event timestamp is
re-parsed (failures dropped) and the pairwise walk is run. -/
def mismatch_anomalies (timeline : List TimelineEvent) : Except Unit (List String) :=
  if 2 ≤ timeline.length then
    firstMismatch (timeline.filterMap fun e =>
      (parse_datetime (.str e.timestamp)).map fun d => (e.event, d))
  else .ok []

/-- Delimiter class of `re.split(r"[>;|,/]+", val)`. -/
def isDelim (c : Char) : Bool := c = '>' || c = ';' || c = '|' || c = ',' || c = '/'

/-- Tokens contributed by one software-related value: split on delimiters,
strip, drop empties, lower-case. -/
def chainTokens (v : Value) : List String :=
  (splitChars isDelim (pyStr v).data).filterMap fun part =>
    let norm := stripChars part
    if norm = [] then none else some (String.mk (norm.map lowerCh))

/-- Whether a key is software-related for editing-chain detection. -/
def chainKey (k : String) : Bool :=
  ["software", "application", "producer", "editor"].any fun t => strContains (pyLower k) t

/-- The `chain_sources` accumulation of `detect_anomalies`. -/
def chain_sources (metadata : Metadata) : List String :=
  metadata.foldl (fun acc p => if chainKey p.1 then acc ++ chainTokens p.2 else acc) []

/-- Source: `list(dict.fromkeys(...))`: de-duplication keeping first occurrences. -/
def dedupFirst (seen : List String) : List String → List String
  | [] => []
  | x :: xs => if x ∈ seen then dedupFirst seen xs else x :: dedupFirst (x :: seen) xs

/-- The multiple-editing-chain step of `detect_anomalies`. -/
def chain_anomalies (metadata : Metadata) : List String :=
  if 2 ≤ (dedupFirst [] (chain_sources metadata)).length then
    ["Multiple editing chain detected from software metadata."]
  else []

/-- Whether a key names a hidden metadata block. -/
def blockKey (k : String) : Bool :=
  ["xmp", "iptc", "exif", "makernote", "thumbnail", "history"].any fun t =>
    strContains (pyLower k) t

/-- The block-count loop of `detect_anomalies`. -/
def block_count (metadata : Metadata) : Nat :=
  (metadata.filter fun p => blockKey p.1).length

/-- The stacked-metadata-block step of `detect_anomalies`. -/
def block_anomalies (metadata : Metadata) : List String :=
  if 3 ≤ block_count metadata then
    ["Possible overwritten/stacked metadata blocks detected."]
  else []

/-- Source: `PrivacyForensicAnalyzer.detect_anomalies`. -/
def detect_anomalies (metadata : Metadata) (timeline : List TimelineEvent) :
    Except Unit (List String) := do
  let mm ← mismatch_anomalies timeline
  .ok (mm ++ chain_anomalies metadata ++ block_anomalies metadata)

/-- The rule record of the analyzer. -/
structure RiskRule where
  name : String
  score : Nat
  reason : String
  checker : Metadata → Bool

/-- Source: `PrivacyForensicAnalyzer._has_any_key`: case-insensitive substring match
of any keyword against any key or value text. -/
def has_any_key (metadata : Metadata) (keywords : List String) : Bool :=
  metadata.any fun p =>
    let key_l := pyLower p.1
    let val_l := pyLower (pyStr p.2)
    keywords.any fun kw => strContains key_l kw || strContains val_l kw

/-- One signed decimal of the raw-coordinate regex
(`[-+]?\d{1,3}\.\d+`), starting at the head of the character list; returns
the remainder after the match.  The greedy `{1,3}` with backtracking is the
three alternative fixed widths tried longest first. -/
def coordNum (cs : List Char) : Option (List Char) :=
  let cs := match cs with
    | c :: rest => if c = '-' || c = '+' then rest else c :: rest
    | [] => []
  let dotFrac : List Char → Option (List Char) := fun cs =>
    match cs with
    | '.' :: c :: rest => if isDigitCh c then some (rest.dropWhile isDigitCh) else none
    | _ => none
  match cs with
  | a :: b :: c :: rest =>
    if isDigitCh a && isDigitCh b && isDigitCh c then
      dotFrac rest <|> dotFrac (c :: rest) <|> dotFrac (b :: c :: rest)
    else if isDigitCh a && isDigitCh b then dotFrac (c :: rest)
    else if isDigitCh a then dotFrac (b :: c :: rest)
    else none
  | a :: b :: rest =>
    if isDigitCh a && isDigitCh b then dotFrac rest
    else if isDigitCh a then dotFrac (b :: rest)
    else none
  | a :: rest => if isDigitCh a then dotFrac rest else none
  | [] => none

/-- Match of the full coordinate pattern
`[-+]?\d{1,3}\.\d+\s*,\s*[-+]?\d{1,3}\.\d+` at the head of the list. -/
def coordAt (cs : List Char) : Bool :=
  match coordNum cs with
  | none => false
  | some rest =>
    match (rest.dropWhile isWsCh) with
    | ',' :: rest2 => (coordNum (rest2.dropWhile isWsCh)).isSome
    | _ => false

/-- Source: `coord_pattern.search(str(value))`: the pattern matches at some
position. -/
def coordSearch (s : String) : Bool := s.data.tails.any coordAt

/-- Source: `PrivacyForensicAnalyzer._has_gps_coordinates`. -/
def has_gps_coordinates (metadata : Metadata) : Bool :=
  has_any_key metadata ["gps", "latitude", "longitude", "lat", "lon", "location"] ||
    metadata.any fun p => coordSearch (pyStr p.2)

/-- The five rules installed by `PrivacyForensicAnalyzer.__init__`, in
evaluation order. -/
def rules : List RiskRule :=
  [⟨"gps_coordinates", 30, "GPS or precise location metadata is present.",
      has_gps_coordinates⟩,
   ⟨"author_identity", 18, "Author/user identity metadata is present.",
      fun m => has_any_key m ["author", "creator", "owner", "user", "last modified by"]⟩,
   ⟨"device_information", 18, "Device or camera-identifying information is present.",
      fun m => has_any_key m ["device", "camera", "model", "serial", "imei", "make"]⟩,
   ⟨"editing_traces", 15, "Software/editor processing traces are present.",
      fun m => has_any_key m ["software", "application", "producer", "editor", "history", "tool"]⟩,
   ⟨"hidden_blocks", 20, "Hidden/embedded metadata blocks (XMP/EXIF/IPTC/MakerNote) detected.",
      fun m => has_any_key m ["xmp", "iptc", "exif", "makernote", "thumbnail", "private tag"]⟩]

/-- The level bands `PrivacyForensicAnalyzer.RISK_LEVELS`. -/
def RISK_LEVELS : List (Nat × Nat × String) :=
  [(0, 29, "LOW"), (30, 64, "MEDIUM"), (65, 100, "HIGH")]

/-- Source: `PrivacyForensicAnalyzer._score_to_level`: first band containing the
score, defaulting to HIGH. -/
def score_to_level (score : Nat) : String :=
  match RISK_LEVELS.find? fun b => b.1 ≤ score && score ≤ b.2.1 with
  | some b => b.2.2
  | none => "HIGH"

/-- Source: `posixpath.basename`. -/
def basename (p : String) : String :=
  String.mk (p.data.drop (match p.data.reverse.findIdx? (· = '/') with
    | some j => p.data.length - j
    | none => 0))

/-- The result record returned by `analyze_file`. -/
structure RiskAssessment where
  file_path : String
  file_name : String
  risk_score : Nat
  risk_level : String
  reasons : List String
  matched_rules : List String
  timeline : List TimelineEvent
  anomalies : List String
  event_count : Nat
deriving DecidableEq, Repr

/-- The pure tail of `analyze_file` once the timeline and anomalies are
known: scoring, clamping, banding and assembling the result dict. -/
def mkAssessment (m : Metadata) (file_path : Option String)
    (timeline : List TimelineEvent) (anomalies : List String) : RiskAssessment :=
  let matched := rules.filter fun r => r.checker m
  let score := (matched.map fun r => r.score).sum
  let score := if anomalies.isEmpty then score else score + 20
  let score := min score 100
  let reasons := (matched.map fun r => r.reason) ++ anomalies
  { file_path := file_path.getD ""
    file_name := match file_path with
      | some p => if p = "" then "" else basename p
      | none => ""
    risk_score := score
    risk_level := score_to_level score
    reasons := if reasons.isEmpty then
        ["No high-sensitivity metadata indicators were detected."]
      else reasons
    matched_rules := matched.map fun r => r.name
    timeline := timeline
    anomalies := anomalies
    event_count := timeline.length }

/-- Source: `PrivacyForensicAnalyzer.analyze_file`.  A non-dict metadata argument is
treated as the empty map (`none` here); no individual rule can raise with
the modelled value shapes, so the per-rule `try`/`except` is invisible; the
only reachable exception is the `TypeError` of the timeline sort, modelled
by `Except`. -/
def analyze_file (metadata : Option Metadata) (file_path : Option String)
    (fallback_timestamps : Option Metadata) : Except Unit RiskAssessment := do
  let m := metadata.getD []
  let timeline ← build_timeline m fallback_timestamps
  let anomalies ← detect_anomalies m timeline
  .ok (mkAssessment m file_path timeline anomalies)

/-- Source: `posixpath.dirname`: everything before the final slash, with trailing
slashes stripped unless the head is all slashes. -/
def dirname (p : String) : String :=
  let cs := p.data
  let i := match cs.reverse.findIdx? (· = '/') with
    | some j => cs.length - j
    | none => 0
  let head := cs.take i
  if head ≠ [] ∧ ¬(head.all (· = '/')) then
    String.mk (head.reverse.dropWhile (· = '/')).reverse
  else String.mk head

/-- One entry of the `analyze_batch` input: `entry.get("file_path", "")` and
`entry.get("metadata", {})`, where `none` stands for a missing or non-dict
metadata value (both are treated as the empty map by `analyze_file`). -/
structure BatchEntry where
  file_path : String
  metadata : Option Metadata

/-- Per-folder counters of `analyze_batch`
(`{"total": 0, "LOW": 0, "MEDIUM": 0, "HIGH": 0}`). -/
structure FolderStat where
  total : Nat
  low : Nat
  medium : Nat
  high : Nat
deriving DecidableEq, Repr

/-- Source: `folder_stats[folder][level] += 1`: a `KeyError` (modelled as `.error`)
would escape if the level were not one of the three labels, which cannot
happen. -/
def bumpLevel (fs : FolderStat) (lvl : String) : Except Unit FolderStat :=
  if lvl = "LOW" then .ok { fs with low := fs.low + 1 }
  else if lvl = "MEDIUM" then .ok { fs with medium := fs.medium + 1 }
  else if lvl = "HIGH" then .ok { fs with high := fs.high + 1 }
  else .error ()

/-- Source: `risk_counts[level] = risk_counts.get(level, 0) + 1` on an
insertion-ordered association list. -/
def bumpCounts (rc : List (String × Nat)) (lvl : String) : List (String × Nat) :=
  if rc.any fun p => p.1 = lvl then
    rc.map fun p => if p.1 = lvl then (p.1, p.2 + 1) else p
  else rc ++ [(lvl, 1)]

/-- In-place update of the association list: every entry whose key is the
folder gets its total and level counter incremented (with unique keys this
is the single dict entry). -/
def bumpFolderList (folder lvl : String) :
    List (String × FolderStat) → Except Unit (List (String × FolderStat))
  | [] => .ok []
  | p :: rest =>
    if p.1 = folder then do
      let s ← bumpLevel { p.2 with total := p.2.total + 1 } lvl
      let rest2 ← bumpFolderList folder lvl rest
      .ok ((p.1, s) :: rest2)
    else do
      let rest2 ← bumpFolderList folder lvl rest
      .ok (p :: rest2)

/-- The folder-stats update of one batch iteration: insert the folder with
zeroed counters if absent, then increment its total and its level counter. -/
def updateFolders (fs : List (String × FolderStat)) (folder lvl : String) :
    Except Unit (List (String × FolderStat)) :=
  let fs := if fs.any fun p => p.1 = folder then fs else fs ++ [(folder, ⟨0, 0, 0, 0⟩)]
  bumpFolderList folder lvl fs

/-- Source: `max(results, key=lambda x: x["risk_score"], default=None)`: first
maximum under strict comparison, `none` on an empty batch. -/
def maxByScore (l : List RiskAssessment) : Option RiskAssessment :=
  l.foldl (fun acc r =>
    match acc with
    | none => some r
    | some a => if a.risk_score < r.risk_score then some r else some a) none

/-- The summary record returned by `analyze_batch`. -/
structure BatchSummary where
  total_files : Nat
  risk_counts : List (String × Nat)
  folders : List (String × FolderStat)
  highest_risk : Option RiskAssessment
  results : List RiskAssessment
deriving DecidableEq

/-- The loop state of `analyze_batch`. -/
structure BatchState where
  results : List RiskAssessment
  risk_counts : List (String × Nat)
  folders : List (String × FolderStat)
deriving DecidableEq

/-- One iteration of the `analyze_batch` loop. -/
def batchStep (st : BatchState) (entry : BatchEntry) : Except Unit BatchState := do
  let item ← analyze_file entry.metadata (some entry.file_path) none
  let folder := if entry.file_path = "" then "Unknown" else dirname entry.file_path
  let fs ← updateFolders st.folders folder item.risk_level
  .ok { results := st.results ++ [item]
        risk_counts := bumpCounts st.risk_counts item.risk_level
        folders := fs }

/-- Source: `PrivacyForensicAnalyzer.analyze_batch`. -/
def analyze_batch (entries : List BatchEntry) : Except Unit BatchSummary := do
  let st ← entries.foldlM batchStep
    ⟨[], [("LOW", 0), ("MEDIUM", 0), ("HIGH", 0)], []⟩
  .ok { total_files := st.results.length
        risk_counts := st.risk_counts
        folders := st.folders
        highest_risk := maxByScore st.results
        results := st.results }

/-! ## General facts about `analyze_file` -/

theorem analyze_file_ok_elim {md : Option Metadata} {fp : Option String}
    {fb : Option Metadata} {res : RiskAssessment}
    (h : analyze_file md fp fb = .ok res) :
    ∃ tl an, build_timeline (md.getD []) fb = .ok tl ∧
      detect_anomalies (md.getD []) tl = .ok an ∧
      res = mkAssessment (md.getD []) fp tl an := by
  simp only [analyze_file, Bind.bind, Except.bind] at h
  cases hb : build_timeline (md.getD []) fb with
  | error e => rw [hb] at h; exact absurd h (by simp)
  | ok tl =>
    rw [hb] at h
    dsimp only at h
    cases hd : detect_anomalies (md.getD []) tl with
    | error e => rw [hd] at h; exact absurd h (by simp)
    | ok an =>
      rw [hd] at h
      refine ⟨tl, an, rfl, hd, ?_⟩
      simpa using h.symm

theorem mkAssessment_score_le (m : Metadata) (fp : Option String)
    (tl : List TimelineEvent) (an : List String) :
    (mkAssessment m fp tl an).risk_score ≤ 100 :=
  Nat.min_le_right _ _

theorem mkAssessment_level (m : Metadata) (fp : Option String)
    (tl : List TimelineEvent) (an : List String) :
    (mkAssessment m fp tl an).risk_level =
      score_to_level (mkAssessment m fp tl an).risk_score := rfl

theorem score_to_level_spec (sc : Nat) (h : sc ≤ 100) :
    (score_to_level sc = "LOW" ↔ sc ≤ 29) ∧
    (score_to_level sc = "MEDIUM" ↔ 30 ≤ sc ∧ sc ≤ 64) ∧
    (score_to_level sc = "HIGH" ↔ 65 ≤ sc ∧ sc ≤ 100) := by
  by_cases h1 : sc ≤ 29
  · have hl : score_to_level sc = "LOW" := by
      simp [score_to_level, RISK_LEVELS, List.find?, Nat.zero_le, h1]
    rw [hl]
    refine ⟨by simp [h1], by simp; omega, by simp; omega⟩
  · by_cases h2 : sc ≤ 64
    · have h3 : 30 ≤ sc := by omega
      have hl : score_to_level sc = "MEDIUM" := by
        simp [score_to_level, RISK_LEVELS, List.find?, h1, h2, h3]
      rw [hl]
      refine ⟨by simp; omega, by simp [h2, h3], by simp; omega⟩
    · have h3 : 65 ≤ sc := by omega
      have hl : score_to_level sc = "HIGH" := by
        simp [score_to_level, RISK_LEVELS, List.find?, h1, h2, h3, h]
      rw [hl]
      refine ⟨by simp; omega, by simp; omega, by simp [h3, h]⟩

/-- C1: for every result returned by `analyze_file`, the risk score is an
integer in `[0, 100]` (a `Nat` bounded by 100 here) and the risk level is
determined by the closed, non-overlapping bands `[0,29] → LOW`,
`[30,64] → MEDIUM`, `[65,100] → HIGH`. -/
theorem C1_risk_level_bands (md : Option Metadata) (fp : Option String)
    (fb : Option Metadata) (res : RiskAssessment)
    (h : analyze_file md fp fb = .ok res) :
    res.risk_score ≤ 100 ∧
    (res.risk_level = "LOW" ↔ res.risk_score ≤ 29) ∧
    (res.risk_level = "MEDIUM" ↔ 30 ≤ res.risk_score ∧ res.risk_score ≤ 64) ∧
    (res.risk_level = "HIGH" ↔ 65 ≤ res.risk_score ∧ res.risk_score ≤ 100) := by
  obtain ⟨tl, an, _, _, hres⟩ := analyze_file_ok_elim h
  subst hres
  refine ⟨mkAssessment_score_le _ _ _ _, ?_⟩
  rw [mkAssessment_level]
  exact score_to_level_spec _ (mkAssessment_score_le _ _ _ _)

/-- The assessment of the empty metadata map (used as concrete witness). -/
def emptyAssessment : RiskAssessment :=
  { file_path := "", file_name := "", risk_score := 0, risk_level := "LOW",
    reasons := ["No high-sensitivity metadata indicators were detected."],
    matched_rules := [], timeline := [], anomalies := [], event_count := 0 }

/-- Witness for C1 at the concrete input `metadata = {}`. -/
theorem C1_risk_level_bands_witness :
    emptyAssessment.risk_score ≤ 100 ∧
    (emptyAssessment.risk_level = "LOW" ↔ emptyAssessment.risk_score ≤ 29) ∧
    (emptyAssessment.risk_level = "MEDIUM" ↔
      30 ≤ emptyAssessment.risk_score ∧ emptyAssessment.risk_score ≤ 64) ∧
    (emptyAssessment.risk_level = "HIGH" ↔
      65 ≤ emptyAssessment.risk_score ∧ emptyAssessment.risk_score ≤ 100) :=
  C1_risk_level_bands (some []) none none emptyAssessment rfl

/-! ## C7: the normalization step of datetime parsing -/

/-- Replace every occurrence of a single character by a replacement string
(Python `str.replace` for a one-character needle). -/
def replaceEvery (needle : Char) (repl : List Char) (cs : List Char) : List Char :=
  cs.flatMap fun c => if c = needle then repl else [c]

/-- Modelled from the spec: the normalization as the claim words it —
replace a *trailing* `Z` with `+00:00` (a `Z` elsewhere untouched), then
replace `/` with `-`. -/
def specTrailingNormalize (s : String) : String :=
  let cs := if s.data.getLast? = some 'Z' then
      s.data.dropLast ++ ['+', '0', '0', ':', '0', '0']
    else s.data
  String.mk (cs.map fun c => if c = '/' then '-' else c)

/-- Counterexample to C7 as stated: on the text `Z1` the source replaces the
non-trailing `Z` as well, diverging from the trailing-only normalization the
claim describes. -/
theorem C7_counterexample :
    normalize "Z1" = "+00:001" ∧ specTrailingNormalize "Z1" = "Z1" ∧
    normalize "Z1" ≠ specTrailingNormalize "Z1" := by
  refine ⟨rfl, rfl, ?_⟩
  decide

/-- C7 amended: the normalization replaces *every* occurrence of `Z` with
`+00:00` (trailing or not) and then every `/` with `-`, that is, it is the
sequential composition of the two unrestricted replacements. -/
theorem C7_normalize_amended (s : String) :
    normalize s = String.mk
      (replaceEvery '/' ['-'] (replaceEvery 'Z' ['+', '0', '0', ':', '0', '0'] s.data)) := by
  show String.mk (normChars s.data) = _
  congr 1
  induction s.data with
  | nil => rfl
  | cons c cs ih =>
    simp only [normChars, replaceEvery, List.flatMap_cons] at *
    rw [ih]
    by_cases hz : c = 'Z'
    · simp [hz, normChars, replaceEvery]
    · by_cases hs : c = '/'
      · simp [hz, hs, normChars, replaceEvery]
      · simp [hz, hs, normChars, replaceEvery]

/-! ## Properties of the timeline sort -/

theorem ordInsert_perm (x : Cand) (l : List Cand) :
    List.Perm (ordInsert x l) (x :: l) := by
  induction l with
  | nil => exact List.Perm.refl _
  | cons y ys ih =>
    simp only [ordInsert]
    split
    · exact List.Perm.refl _
    · exact (ih.cons y).trans (List.Perm.swap x y ys)

theorem insSort_perm (l : List Cand) : List.Perm (insSort l) l := by
  induction l with
  | nil => exact List.Perm.refl _
  | cons x xs ih => exact (ordInsert_perm x (insSort xs)).trans (ih.cons x)

theorem mem_ordInsert {a x : Cand} {l : List Cand} (h : a ∈ ordInsert x l) :
    a = x ∨ a ∈ l := by
  have := (ordInsert_perm x l).mem_iff.mp h
  simpa using this

theorem ordInsert_sorted {x : Cand} {l : List Cand}
    (h : l.Pairwise fun a b => dtKey a.dtv ≤ dtKey b.dtv) :
    (ordInsert x l).Pairwise fun a b => dtKey a.dtv ≤ dtKey b.dtv := by
  induction l with
  | nil => simp [ordInsert]
  | cons y ys ih =>
    rw [List.pairwise_cons] at h
    simp only [ordInsert]
    split
    · rename_i hle
      rw [List.pairwise_cons]
      refine ⟨?_, List.pairwise_cons.mpr h⟩
      intro b hb
      rcases List.mem_cons.mp hb with hb | hb
      · subst hb; exact hle
      · exact le_trans hle (h.1 b hb)
    · rename_i hgt
      rw [List.pairwise_cons]
      refine ⟨?_, ih h.2⟩
      intro b hb
      rcases mem_ordInsert hb with hb | hb
      · subst hb; omega
      · exact h.1 b hb

theorem insSort_sorted (l : List Cand) :
    (insSort l).Pairwise fun a b => dtKey a.dtv ≤ dtKey b.dtv := by
  induction l with
  | nil => simp [insSort]
  | cons x xs ih => exact ordInsert_sorted ih

theorem filter_ordInsert (x : Cand) (l : List Cand) (k : Int) :
    (ordInsert x l).filter (fun c => decide (dtKey c.dtv = k)) =
      if dtKey x.dtv = k then x :: l.filter (fun c => decide (dtKey c.dtv = k))
      else l.filter (fun c => decide (dtKey c.dtv = k)) := by
  induction l with
  | nil => simp only [ordInsert]; split <;> simp_all [List.filter]
  | cons y ys ih =>
    simp only [ordInsert]
    split
    · rename_i hle
      by_cases hx : dtKey x.dtv = k <;> simp [hx, List.filter]
    · rename_i hgt
      have hy : dtKey y.dtv < dtKey x.dtv := by omega
      by_cases hx : dtKey x.dtv = k
      · have hyk : ¬(dtKey y.dtv = k) := by omega
        simp [List.filter, hyk, ih, hx]
      · by_cases hyk : dtKey y.dtv = k <;> simp [List.filter, hyk, ih, hx]

theorem insSort_filter (l : List Cand) (k : Int) :
    (insSort l).filter (fun c => decide (dtKey c.dtv = k)) =
      l.filter (fun c => decide (dtKey c.dtv = k)) := by
  induction l with
  | nil => rfl
  | cons x xs ih =>
    simp only [insSort, filter_ordInsert]
    by_cases hx : dtKey x.dtv = k <;> simp [List.filter, hx, ih]

theorem build_timeline_ok_elim {m : Metadata} {fb : Option Metadata}
    {tl : List TimelineEvent} (h : build_timeline m fb = .ok tl) :
    tl = (insSort (timeline_candidates m fb)).map
      (fun c => (⟨c.event, c.raw⟩ : TimelineEvent)) ∧
    ¬(2 ≤ (timeline_candidates m fb).length ∧
      (((timeline_candidates m fb).any fun c => c.dtv.aware) = true) ∧
      (((timeline_candidates m fb).any fun c => !c.dtv.aware) = true)) := by
  by_cases hc : 2 ≤ (timeline_candidates m fb).length ∧
      (((timeline_candidates m fb).any fun c => c.dtv.aware) = true) ∧
      (((timeline_candidates m fb).any fun c => !c.dtv.aware) = true)
  · simp only [build_timeline, pySortCands, if_pos hc, Bind.bind, Except.bind] at h
    exact absurd h (by simp)
  · simp only [build_timeline, pySortCands, if_neg hc, Bind.bind, Except.bind] at h
    refine ⟨?_, hc⟩
    simpa using h.symm

/-! ## Round trip: `str(datetime)` re-parses to the same datetime -/

theorem digitCh_digit (k : Nat) : isDigitCh (digitCh k) = true := by
  unfold digitCh; split <;> decide

theorem digitCh_not_ws (k : Nat) : isWsCh (digitCh k) = false := by
  unfold digitCh; split <;> decide

theorem digitCh_ne_Z (k : Nat) : digitCh k ≠ 'Z' := by
  unfold digitCh; split <;> decide

theorem digitCh_ne_slash (k : Nat) : digitCh k ≠ '/' := by
  unfold digitCh; split <;> decide

theorem digitCh_ne_colon (k : Nat) : digitCh k ≠ ':' := by
  unfold digitCh; split <;> decide

theorem dv_digitCh {k : Nat} (h : k < 10) : dv (digitCh k) = k := by
  interval_cases k <;> decide

theorem normChars_id {cs : List Char} (h : ∀ c ∈ cs, c ≠ 'Z' ∧ c ≠ '/') :
    normChars cs = cs := by
  induction cs with
  | nil => rfl
  | cons c cs ih =>
    have hc := h c (by simp)
    have ihh := ih fun x hx => h x (by simp [hx])
    simp only [normChars, List.flatMap_cons] at ihh ⊢
    rw [if_neg hc.1, if_neg hc.2, ihh]
    rfl

theorem renderChars_no_ZS (d : DT) : ∀ c ∈ renderChars d, c ≠ 'Z' ∧ c ≠ '/' := by
  intro c hc
  rw [renderChars] at hc
  rcases d with ⟨y, mo, da, h, mi, s, tz⟩
  cases tz with
  | none =>
    simp only [tzChars, pad4, pad2, List.append_nil, List.cons_append, List.nil_append,
      List.mem_cons, List.not_mem_nil, or_false] at hc
    rcases hc with rfl | rfl | rfl | rfl | rfl | rfl | rfl | rfl | rfl | rfl | rfl |
      rfl | rfl | rfl | rfl | rfl | rfl | rfl | rfl <;>
      first
        | exact ⟨digitCh_ne_Z _, digitCh_ne_slash _⟩
        | exact ⟨by decide, by decide⟩
  | some off =>
    simp only [tzChars, pad4, pad2, List.append_nil, List.cons_append, List.nil_append,
      List.mem_cons, List.not_mem_nil, or_false] at hc
    rcases hc with rfl | rfl | rfl | rfl | rfl | rfl | rfl | rfl | rfl | rfl | rfl |
      rfl | rfl | rfl | rfl | rfl | rfl | rfl | rfl | rfl | rfl | rfl | rfl | rfl | rfl <;>
      first
        | exact ⟨digitCh_ne_Z _, digitCh_ne_slash _⟩
        | exact ⟨by decide, by decide⟩
        | (split <;> exact ⟨by decide, by decide⟩)

theorem stripChars_eq_self {cs : List Char}
    (h1 : ∃ a t, cs = a :: t ∧ isWsCh a = false)
    (h2 : ∃ c, cs.getLast? = some c ∧ isWsCh c = false) :
    stripChars cs = cs := by
  obtain ⟨a, t, rfl, ha⟩ := h1
  obtain ⟨c, hc, hcw⟩ := h2
  rw [stripChars, List.dropWhile_cons_of_neg (by simp [ha])]
  have hh : (a :: t).reverse.head? = some c := by
    rw [List.head?_reverse]; exact hc
  obtain ⟨t', ht'⟩ : ∃ t', (a :: t).reverse = c :: t' := by
    cases hrev : (a :: t).reverse with
    | nil => rw [hrev] at hh; simp at hh
    | cons x xs =>
      rw [hrev] at hh
      simp only [List.head?_cons, Option.some.injEq] at hh
      exact ⟨xs, by rw [hh]⟩
  rw [ht', List.dropWhile_cons_of_neg (by simp [hcw]), ← ht', List.reverse_reverse]

theorem renderChars_head (d : DT) :
    ∃ t, renderChars d = digitCh (d.year / 1000) :: t ∧
      isWsCh (digitCh (d.year / 1000)) = false :=
  ⟨_, by rw [renderChars, pad4]; rfl, digitCh_not_ws _⟩

theorem renderChars_last (d : DT) :
    ∃ c, (renderChars d).getLast? = some c ∧ isWsCh c = false := by
  rcases d with ⟨y, mo, da, h, mi, s, tz⟩
  cases tz with
  | none =>
    refine ⟨digitCh (s % 10), ?_, digitCh_not_ws _⟩
    rw [renderChars]
    simp only [tzChars, pad4, pad2, List.append_nil, List.cons_append, List.nil_append]
    simp only [List.getLast?_cons_cons, List.getLast?_singleton]
  | some off =>
    refine ⟨digitCh (off.natAbs % 60 % 10), ?_, digitCh_not_ws _⟩
    rw [renderChars]
    simp only [tzChars, pad4, pad2, List.append_nil, List.cons_append, List.nil_append]
    simp only [List.getLast?_cons_cons, List.getLast?_singleton]

theorem stripChars_render (d : DT) : stripChars (renderChars d) = renderChars d := by
  refine stripChars_eq_self ?_ (renderChars_last d)
  obtain ⟨t, ht, hw⟩ := renderChars_head d
  exact ⟨_, t, ht, hw⟩

theorem exifShape_render (d : DT) : exifShape (renderChars d) = false := by
  rw [renderChars]
  simp only [pad4, pad2, List.cons_append, List.nil_append]
  rw [exifShape]
  simp

theorem daysInMonth_le (y m : Nat) : daysInMonth y m ≤ 31 := by
  unfold daysInMonth
  split
  · split <;> omega
  · split <;> omega

theorem dv_pad2 {n : Nat} (h : n ≤ 99) :
    dv (digitCh (n / 10)) * 10 + dv (digitCh (n % 10)) = n := by
  rw [dv_digitCh (by omega), dv_digitCh (by omega)]; omega

theorem dv_pad4 {n : Nat} (h : n ≤ 9999) :
    dv (digitCh (n / 1000)) * 1000 + dv (digitCh (n / 100 % 10)) * 100 +
      dv (digitCh (n / 10 % 10)) * 10 + dv (digitCh (n % 10)) = n := by
  rw [dv_digitCh (by omega), dv_digitCh (by omega), dv_digitCh (by omega),
    dv_digitCh (by omega)]
  omega

theorem parseIsoEnd_render {y mo da hh mi s : Nat} {tz : Option Int}
    (hval : (⟨y, mo, da, hh, mi, s, tz⟩ : DT).valid = true) :
    parseIsoEnd y mo da hh mi s (tzChars tz) = some ⟨y, mo, da, hh, mi, s, tz⟩ := by
  cases tz with
  | none =>
    rw [tzChars, parseIsoEnd, mkValidDT]
    simp [hval]
  | some off =>
    have hb : off.natAbs ≤ 1439 := by
      simp only [DT.valid, Bool.and_eq_true, decide_eq_true_eq] at hval
      exact hval.2
    rw [tzChars]
    simp only [pad2, List.cons_append, List.nil_append]
    rw [parseIsoEnd]
    have hg : (((if (0 : Int) ≤ off then '+' else '-') = '+' ||
        (if (0 : Int) ≤ off then '+' else '-') = '-') && isDigitCh (digitCh (off.natAbs / 60 / 10)) &&
        isDigitCh (digitCh (off.natAbs / 60 % 10)) && (':' : Char) = ':' &&
        isDigitCh (digitCh (off.natAbs % 60 / 10)) && isDigitCh (digitCh (off.natAbs % 60 % 10)) &&
        ([] : List Char).isEmpty) = true := by
      simp only [digitCh_digit, List.isEmpty_nil, Bool.and_true, Bool.true_and]
      split <;> simp
    rw [if_pos hg]
    have hoh : dv (digitCh (off.natAbs / 60 / 10)) * 10 +
        dv (digitCh (off.natAbs / 60 % 10)) = off.natAbs / 60 := dv_pad2 (by omega)
    have hom : dv (digitCh (off.natAbs % 60 / 10)) * 10 +
        dv (digitCh (off.natAbs % 60 % 10)) = off.natAbs % 60 := dv_pad2 (by omega)
    rw [hoh, hom]
    rw [if_pos (show ((off.natAbs / 60 ≤ 23 : Bool) && (off.natAbs % 60 ≤ 59 : Bool)) = true by
      simp only [Bool.and_eq_true, decide_eq_true_eq]
      omega)]
    have hoff : (if (if (0 : Int) ≤ off then '+' else '-') = '-' then
          -((off.natAbs / 60 * 60 + off.natAbs % 60 : Nat) : Int)
        else ((off.natAbs / 60 * 60 + off.natAbs % 60 : Nat) : Int)) = off := by
      by_cases h0 : (0 : Int) ≤ off
      · rw [if_pos h0, if_neg (by decide)]; omega
      · rw [if_neg h0, if_pos rfl]; omega
    rw [hoff, mkValidDT]
    simp [hval]

theorem parseIsoSec_render {y mo da hh mi s : Nat} {tz : Option Int}
    (hval : (⟨y, mo, da, hh, mi, s, tz⟩ : DT).valid = true) :
    parseIsoSec y mo da hh mi (':' :: (pad2 s ++ tzChars tz)) =
      some ⟨y, mo, da, hh, mi, s, tz⟩ := by
  have hs : s ≤ 59 := by
    simp only [DT.valid, Bool.and_eq_true, decide_eq_true_eq] at hval
    omega
  simp only [pad2, List.cons_append]
  rw [parseIsoSec]
  rw [if_pos rfl]
  rw [if_pos (show (isDigitCh (digitCh (s / 10)) && isDigitCh (digitCh (s % 10))) = true by
    simp [digitCh_digit])]
  rw [dv_pad2 (by omega)]
  exact parseIsoEnd_render hval

theorem parseIsoTime_render {y mo da hh mi s : Nat} {tz : Option Int}
    (hval : (⟨y, mo, da, hh, mi, s, tz⟩ : DT).valid = true) :
    parseIsoTime y mo da
      (pad2 hh ++ ':' :: (pad2 mi ++ ':' :: (pad2 s ++ tzChars tz))) =
      some ⟨y, mo, da, hh, mi, s, tz⟩ := by
  have hb : hh ≤ 23 ∧ mi ≤ 59 := by
    simp only [DT.valid, Bool.and_eq_true, decide_eq_true_eq] at hval
    omega
  simp only [pad2, List.cons_append, List.nil_append]
  rw [parseIsoTime]
  rw [if_pos (show (isDigitCh (digitCh (hh / 10)) && isDigitCh (digitCh (hh % 10)) &&
      ((':' : Char) = ':') && isDigitCh (digitCh (mi / 10)) && isDigitCh (digitCh (mi % 10))) = true by
    simp [digitCh_digit])]
  rw [dv_pad2 (by omega), dv_pad2 (by omega)]
  exact parseIsoSec_render hval

theorem parseIsoChars_render {d : DT} (h : d.valid = true) :
    parseIsoChars (renderChars d) = some d := by
  rcases d with ⟨y, mo, da, hh, mi, s, tz⟩
  have hb : 1 ≤ y ∧ y ≤ 9999 ∧ 1 ≤ mo ∧ mo ≤ 12 ∧ 1 ≤ da ∧ da ≤ 31 := by
    simp only [DT.valid, Bool.and_eq_true, decide_eq_true_eq] at h
    have := daysInMonth_le y mo
    omega
  rw [renderChars]
  simp only [pad4, pad2, List.cons_append, List.nil_append]
  rw [parseIsoChars]
  rw [if_pos (show (isDigitCh (digitCh (y / 1000)) && isDigitCh (digitCh (y / 100 % 10)) &&
      isDigitCh (digitCh (y / 10 % 10)) && isDigitCh (digitCh (y % 10)) && (('-' : Char) = '-') &&
      isDigitCh (digitCh (mo / 10)) && isDigitCh (digitCh (mo % 10)) && (('-' : Char) = '-') &&
      isDigitCh (digitCh (da / 10)) && isDigitCh (digitCh (da % 10))) = true by
    simp [digitCh_digit])]
  have hy : dv (digitCh (y / 1000)) * 1000 + dv (digitCh (y / 100 % 10)) * 100 +
      dv (digitCh (y / 10 % 10)) * 10 + dv (digitCh (y % 10)) = y := dv_pad4 (by omega)
  rw [hy, dv_pad2 (by omega), dv_pad2 (by omega)]
  dsimp only
  rw [if_pos (show ((' ' : Char) = 'T' || (' ' : Char) = ' ') = true by decide)]
  exact parseIsoTime_render h

theorem tryFormats_render {d : DT} (h : d.valid = true) :
    tryFormats (renderChars d) = some d := by
  rw [tryFormats, parseIsoChars_render h]
  rfl

theorem parse_render {d : DT} (h : d.valid = true) :
    parse_datetime (.str (renderDT d)) = some d := by
  have hstrip : stripChars (renderChars d) = renderChars d := stripChars_render d
  have hne : ¬(String.mk (stripChars (renderChars d)) = "") := by
    rw [hstrip]
    obtain ⟨t, ht, _⟩ := renderChars_head d
    rw [ht]
    intro hcon
    exact absurd (congrArg String.data hcon) (by simp)
  rw [parse_datetime]
  dsimp only [pyStr, pyStrip, renderDT]
  rw [if_neg hne, hstrip, normChars_id (renderChars_no_ZS d)]
  rw [if_neg (show ¬(exifShape (renderChars d) = true) by simp [exifShape_render d])]
  exact tryFormats_render h
  · intro hcon; cases hcon
  · intro d' hcon; cases hcon

/-- A non-datetime value re-parses from its text form to the same result:
`_parse_datetime(str(value))` agrees with `_parse_datetime(value)`; for a
datetime object the rendered `str(datetime)` parses back to the object. -/
theorem reparse_eq {v : Value} {d : DT}
    (hv : ∀ d' : DT, v = .dt d' → d'.valid = true)
    (h : parse_datetime v = some d) :
    parse_datetime (.str (pyStr v)) = some d := by
  cases v with
  | nil => rw [parse_datetime] at h; exact absurd h (by simp)
  | str s => exact h
  | int n => exact h
  | nested l => exact h
  | dt d' =>
    rw [parse_datetime] at h
    have hd : d' = d := by simpa using h
    subst hd
    exact parse_render (hv d' rfl)

/-! ## The mismatch branch of `detect_anomalies` on built timelines -/

/-- Every datetime object stored as a metadata value has the validity that
the `datetime.datetime` constructor guarantees for every Python datetime. -/
def dtValuesValid (m : Metadata) : Prop :=
  ∀ p ∈ m, ∀ d : DT, p.2 = Value.dt d → d.valid = true

/-- Validity of the optional fallback map. -/
def fbValid : Option Metadata → Prop
  | none => True
  | some fbm => dtValuesValid fbm

theorem filterMap_all_some {α β : Type _} {f : α → Option β} {g : α → β} {l : List α}
    (h : ∀ a ∈ l, f a = some (g a)) : l.filterMap f = l.map g := by
  induction l with
  | nil => rfl
  | cons a as ih =>
    rw [List.filterMap_cons, h a (by simp), List.map_cons,
      ih fun x hx => h x (by simp [hx])]

theorem extract_candidates_from {m : Metadata} {c : Cand}
    (hc : c ∈ extract_timestamp_candidates m) :
    ∃ p ∈ m, parse_datetime p.2 = some c.dtv ∧ c.raw = pyStr p.2 := by
  unfold extract_timestamp_candidates at hc
  rw [List.mem_filterMap] at hc
  obtain ⟨p, hp, hf⟩ := hc
  refine ⟨p, hp, ?_⟩
  split at hf
  · rw [Option.map_eq_some'] at hf
    obtain ⟨d, hd, hcd⟩ := hf
    subst hcd
    exact ⟨hd, rfl⟩
  · exact absurd hf (by simp)

theorem fallback_candidates_from {fbm : Metadata} {c : Cand}
    (hc : c ∈ fbm.filterMap fun p =>
      (parse_datetime p.2).map fun d => ⟨p.1, pyStr p.2, d⟩) :
    ∃ p ∈ fbm, parse_datetime p.2 = some c.dtv ∧ c.raw = pyStr p.2 := by
  rw [List.mem_filterMap] at hc
  obtain ⟨p, hp, hf⟩ := hc
  rw [Option.map_eq_some'] at hf
  obtain ⟨d, hd, hcd⟩ := hf
  subst hcd
  exact ⟨p, hp, hd, rfl⟩

theorem timeline_candidates_from {m : Metadata} {fb : Option Metadata} {c : Cand}
    (hc : c ∈ timeline_candidates m fb) :
    ∃ v : Value, ((∃ k, (k, v) ∈ m) ∨ (∃ fbm k, fb = some fbm ∧ (k, v) ∈ fbm)) ∧
      parse_datetime v = some c.dtv ∧ c.raw = pyStr v := by
  unfold timeline_candidates at hc
  cases fb with
  | none =>
    have hc' : c ∈ extract_timestamp_candidates m := by
      dsimp only at hc
      split at hc <;> exact hc
    obtain ⟨p, hp, h1, h2⟩ := extract_candidates_from hc'
    exact ⟨p.2, Or.inl ⟨p.1, hp⟩, h1, h2⟩
  | some fbm =>
    dsimp only at hc
    split at hc
    · obtain ⟨p, hp, h1, h2⟩ := fallback_candidates_from hc
      exact ⟨p.2, Or.inr ⟨fbm, p.1, rfl, hp⟩, h1, h2⟩
    · obtain ⟨p, hp, h1, h2⟩ := extract_candidates_from hc
      exact ⟨p.2, Or.inl ⟨p.1, hp⟩, h1, h2⟩

theorem candidates_reparse {m : Metadata} {fb : Option Metadata}
    (hm : dtValuesValid m) (hf : fbValid fb) :
    ∀ c ∈ timeline_candidates m fb, parse_datetime (.str c.raw) = some c.dtv := by
  intro c hc
  obtain ⟨v, hsrc, hparse, hraw⟩ := timeline_candidates_from hc
  rw [hraw]
  apply reparse_eq ?_ hparse
  intro d' hd'
  rcases hsrc with ⟨k, hk⟩ | ⟨fbm, k, hfb, hk⟩
  · exact hm (k, v) hk d' hd'
  · rw [hfb] at hf; exact hf (k, v) hk d' hd'

theorem firstMismatch_sorted {l : List (String × DT)}
    (hs : l.Pairwise fun a b => dtKey a.2 ≤ dtKey b.2)
    (hu : ∀ a ∈ l, ∀ b ∈ l, a.2.aware = b.2.aware) :
    firstMismatch l = .ok [] := by
  induction l with
  | nil => rfl
  | cons p t ih =>
    cases t with
    | nil => rfl
    | cons q r =>
      rw [firstMismatch]
      rw [List.pairwise_cons] at hs
      rw [if_pos (hu q (by simp) p (by simp))]
      rw [if_neg (show ¬(dtKey q.2 < dtKey p.2) by
        have := hs.1 q (by simp); omega)]
      exact ih hs.2 fun a ha b hb => hu a (by simp [ha]) b (by simp [hb])

/-- On any timeline actually produced by `build_timeline` (with valid
datetime objects among the values), `detect_anomalies` raises nothing and
its out-of-order-timestamp branch contributes no anomaly: the result is
exactly the chain and block anomalies. -/
theorem detect_anomalies_ok {m : Metadata} {fb : Option Metadata}
    {tl : List TimelineEvent}
    (hm : dtValuesValid m) (hf : fbValid fb)
    (h : build_timeline m fb = .ok tl) :
    detect_anomalies m tl = .ok (chain_anomalies m ++ block_anomalies m) := by
  obtain ⟨htl, hmix⟩ := build_timeline_ok_elim h
  suffices hmm : mismatch_anomalies tl = .ok [] by
    rw [detect_anomalies, hmm]
    rfl
  rw [mismatch_anomalies]
  by_cases hlen : 2 ≤ tl.length
  case neg => rw [if_neg hlen]
  case pos =>
  rw [if_pos hlen]
  have hre : ∀ c ∈ insSort (timeline_candidates m fb),
      parse_datetime (.str c.raw) = some c.dtv := fun c hc =>
    candidates_reparse hm hf c ((insSort_perm _).mem_iff.mp hc)
  have hfm : tl.filterMap (fun e => (parse_datetime (.str e.timestamp)).map
        fun d => (e.event, d)) =
      (insSort (timeline_candidates m fb)).map fun c => (c.event, c.dtv) := by
    rw [htl, List.filterMap_map]
    exact filterMap_all_some fun c hc => by
      show ((parse_datetime (.str c.raw)).map fun d => (c.event, d)) = _
      rw [hre c hc]
      rfl
  rw [hfm]
  apply firstMismatch_sorted
  · rw [List.pairwise_map]
    exact insSort_sorted _
  · intro a ha b hb
    rw [List.mem_map] at ha hb
    obtain ⟨ca, hca, rfl⟩ := ha
    obtain ⟨cb, hcb, rfl⟩ := hb
    have hca' := (insSort_perm _).mem_iff.mp hca
    have hcb' := (insSort_perm _).mem_iff.mp hcb
    have hlc : 2 ≤ (timeline_candidates m fb).length := by
      rw [htl, List.length_map, (insSort_perm (timeline_candidates m fb)).length_eq] at hlen
      exact hlen
    have huni : ∀ x ∈ timeline_candidates m fb, ∀ z ∈ timeline_candidates m fb,
        x.dtv.aware = z.dtv.aware := by
      intro x hx z hz
      cases hxa : x.dtv.aware <;> cases hza : z.dtv.aware
      · rfl
      · exact absurd ⟨hlc, List.any_eq_true.mpr ⟨z, hz, by simp [hza]⟩,
          List.any_eq_true.mpr ⟨x, hx, by simp [hxa]⟩⟩ hmix
      · exact absurd ⟨hlc, List.any_eq_true.mpr ⟨x, hx, by simp [hxa]⟩,
          List.any_eq_true.mpr ⟨z, hz, by simp [hza]⟩⟩ hmix
      · rfl
    show ca.dtv.aware = cb.dtv.aware
    exact huni ca hca' cb hcb'

/-! ## C8: the mismatch anomaly is unreachable for string/number values -/

/-- The hypothesis of C8: every value is a string or a number. -/
def strNumValues (m : Metadata) : Prop :=
  ∀ p ∈ m, (∃ s, p.2 = Value.str s) ∨ (∃ n, p.2 = Value.int n)

/-- Source: `strNumValues` for the optional fallback map. -/
def strNumOpt : Option Metadata → Prop
  | none => True
  | some fbm => strNumValues fbm

theorem strNum_dtValid {m : Metadata} (h : strNumValues m) : dtValuesValid m := by
  intro p hp d hd
  rcases h p hp with ⟨s, hs⟩ | ⟨n, hn⟩
  · rw [hd] at hs; cases hs
  · rw [hd] at hn; cases hn

/-- C8: when all metadata and fallback values are strings or numbers,
`detect_anomalies` on a timeline produced by `build_timeline` never raises
and never emits a timestamp-mismatch entry: its result is exactly the chain
and block anomalies. -/
theorem C8_mismatch_unreachable (m : Metadata) (fb : Option Metadata)
    (tl : List TimelineEvent) (hm : strNumValues m) (hf : strNumOpt fb)
    (h : build_timeline m fb = .ok tl) :
    detect_anomalies m tl = .ok (chain_anomalies m ++ block_anomalies m) := by
  refine detect_anomalies_ok (strNum_dtValid hm) ?_ h
  cases fb with
  | none => trivial
  | some fbm => exact strNum_dtValid hf

/-- Witness for C8: two date-hinted string fields given out of order. -/
theorem C8_mismatch_unreachable_witness :
    detect_anomalies
      [("created", .str "2024-01-02"), ("modified", .str "2024-01-01")]
      [⟨"modified", "2024-01-01"⟩, ⟨"created", "2024-01-02"⟩] =
    .ok (chain_anomalies [("created", .str "2024-01-02"), ("modified", .str "2024-01-01")] ++
      block_anomalies [("created", .str "2024-01-02"), ("modified", .str "2024-01-01")]) := by
  refine C8_mismatch_unreachable _ none _ ?_ trivial (by decide)
  intro p hp
  simp only [List.mem_cons, List.not_mem_nil, or_false] at hp
  rcases hp with rfl | rfl
  · exact Or.inl ⟨_, rfl⟩
  · exact Or.inl ⟨_, rfl⟩

/-! ## C5: timelines are stably sorted and drop the parsed datetime -/

/-- C5: every timeline `build_timeline` returns is the image (keeping only
label and raw timestamp text) of a rearrangement of the candidate triples
that is sorted ascending by parsed datetime and stable: candidates with
equal datetime keys appear in their input encounter order. -/
theorem C5_timeline_sorted_stable (m : Metadata) (fb : Option Metadata)
    (tl : List TimelineEvent) (h : build_timeline m fb = .ok tl) :
    ∃ cs : List Cand,
      List.Perm cs (timeline_candidates m fb) ∧
      cs.Pairwise (fun a b => dtKey a.dtv ≤ dtKey b.dtv) ∧
      (∀ k : Int, cs.filter (fun c => decide (dtKey c.dtv = k)) =
        (timeline_candidates m fb).filter fun c => decide (dtKey c.dtv = k)) ∧
      tl = cs.map fun c => ⟨c.event, c.raw⟩ := by
  obtain ⟨htl, _⟩ := build_timeline_ok_elim h
  exact ⟨insSort _, insSort_perm _, insSort_sorted _, insSort_filter _, htl⟩

/-- Witness for C5 at a concrete two-event metadata map. -/
theorem C5_timeline_sorted_stable_witness :
    ∃ cs : List Cand,
      List.Perm cs (timeline_candidates
        [("created", Value.str "2024-01-02"), ("modified", Value.str "2024-01-01")] none) ∧
      cs.Pairwise (fun a b => dtKey a.dtv ≤ dtKey b.dtv) ∧
      (∀ k : Int, cs.filter (fun c => decide (dtKey c.dtv = k)) =
        (timeline_candidates
          [("created", Value.str "2024-01-02"), ("modified", Value.str "2024-01-01")] none).filter
          fun c => decide (dtKey c.dtv = k)) ∧
      ([⟨"modified", "2024-01-01"⟩, ⟨"created", "2024-01-02"⟩] :
        List TimelineEvent) = cs.map fun c => ⟨c.event, c.raw⟩ :=
  C5_timeline_sorted_stable
    [("created", Value.str "2024-01-02"), ("modified", Value.str "2024-01-01")] none
    [⟨"modified", "2024-01-01"⟩, ⟨"created", "2024-01-02"⟩] (by decide)

/-! ## C4: fallback activation -/

/-- C4: when the date-hinted metadata keys yield zero parseable candidates
and a fallback map is supplied, the timeline has exactly one event per
parseable fallback entry — labels and raw texts taken from the fallback
entries with no key-text filtering — ordered by the parsed datetimes. -/
theorem C4_fallback_activation (m : Metadata) (fbm : Metadata)
    (tl : List TimelineEvent)
    (hempty : extract_timestamp_candidates m = [])
    (h : build_timeline m (some fbm) = .ok tl) :
    tl.length = (fbm.filterMap fun p =>
      (parse_datetime p.2).map fun d => (⟨p.1, pyStr p.2, d⟩ : Cand)).length ∧
    ∃ cs : List Cand,
      List.Perm cs (fbm.filterMap fun p =>
        (parse_datetime p.2).map fun d => (⟨p.1, pyStr p.2, d⟩ : Cand)) ∧
      cs.Pairwise (fun a b => dtKey a.dtv ≤ dtKey b.dtv) ∧
      tl = cs.map fun c => ⟨c.event, c.raw⟩ := by
  have hcand : timeline_candidates m (some fbm) = fbm.filterMap fun p =>
      (parse_datetime p.2).map fun d => (⟨p.1, pyStr p.2, d⟩ : Cand) := by
    unfold timeline_candidates
    rw [hempty]
    rfl
  obtain ⟨htl, _⟩ := build_timeline_ok_elim h
  rw [hcand] at htl
  refine ⟨?_, insSort _, insSort_perm _, insSort_sorted _, htl⟩
  rw [htl, List.length_map, (insSort_perm _).length_eq]

/-- Witness for C4: the fallback scenario of the test suite. -/
theorem C4_fallback_activation_witness :
    ([⟨"Created Date", "2025-01-01 08:00:00"⟩, ⟨"Modified Date", "2025-01-02 09:00:00"⟩,
      ⟨"Extraction Date", "2025-01-03 10:00:00"⟩] : List TimelineEvent).length =
      ((([("Created Date", Value.str "2025-01-01 08:00:00"),
          ("Modified Date", Value.str "2025-01-02 09:00:00"),
          ("Extraction Date", Value.str "2025-01-03 10:00:00")] : Metadata)).filterMap fun p =>
        (parse_datetime p.2).map fun d => (⟨p.1, pyStr p.2, d⟩ : Cand)).length ∧
    ∃ cs : List Cand,
      List.Perm cs ((([("Created Date", Value.str "2025-01-01 08:00:00"),
          ("Modified Date", Value.str "2025-01-02 09:00:00"),
          ("Extraction Date", Value.str "2025-01-03 10:00:00")] : Metadata)).filterMap fun p =>
        (parse_datetime p.2).map fun d => (⟨p.1, pyStr p.2, d⟩ : Cand)) ∧
      cs.Pairwise (fun a b => dtKey a.dtv ≤ dtKey b.dtv) ∧
      ([⟨"Created Date", "2025-01-01 08:00:00"⟩, ⟨"Modified Date", "2025-01-02 09:00:00"⟩,
        ⟨"Extraction Date", "2025-01-03 10:00:00"⟩] : List TimelineEvent) =
        cs.map fun c => ⟨c.event, c.raw⟩ :=
  C4_fallback_activation [("Author", Value.str "NoDate User")]
    [("Created Date", Value.str "2025-01-01 08:00:00"),
     ("Modified Date", Value.str "2025-01-02 09:00:00"),
     ("Extraction Date", Value.str "2025-01-03 10:00:00")]
    [⟨"Created Date", "2025-01-01 08:00:00"⟩, ⟨"Modified Date", "2025-01-02 09:00:00"⟩,
     ⟨"Extraction Date", "2025-01-03 10:00:00"⟩] (by decide) (by decide)

/-! ## C2: `analyze_file` can raise on mixed-awareness timelines -/

/-- Counterexample to C2 as stated: both values are shapes the spec
describes (plain text), yet one parses timezone-aware (`Z` suffix) and one
naive, so the timeline sort compares an aware with a naive datetime and the
`TypeError` escapes `analyze_file` to its caller. -/
theorem C2_counterexample :
    analyze_file (some [("created", .str "2024-01-01T00:00:00Z"),
      ("modified", .str "2024-01-02")]) none none = .error () := by decide

/-- The mixed-awareness condition of the timeline sort: the only failure
point of `analyze_file`. -/
def mixedTimeline (m : Metadata) (fb : Option Metadata) : Prop :=
  2 ≤ (timeline_candidates m fb).length ∧
  (((timeline_candidates m fb).any fun c => c.dtv.aware) = true) ∧
  (((timeline_candidates m fb).any fun c => !c.dtv.aware) = true)

/-- Well-formedness of a risk assessment record. -/
def WellFormedAssessment (r : RiskAssessment) : Prop :=
  r.risk_score ≤ 100 ∧ r.risk_level ∈ ["LOW", "MEDIUM", "HIGH"] ∧
  r.reasons ≠ [] ∧ r.event_count = r.timeline.length

theorem score_to_level_mem (sc : Nat) : score_to_level sc ∈ ["LOW", "MEDIUM", "HIGH"] := by
  cases hf : RISK_LEVELS.find? fun b => b.1 ≤ sc && sc ≤ b.2.1 with
  | none => simp [score_to_level, hf]
  | some b =>
    have hb := List.mem_of_find?_eq_some hf
    unfold score_to_level
    rw [hf]
    fin_cases hb <;> simp

theorem mkAssessment_reasons_ne (m : Metadata) (fp : Option String)
    (tl : List TimelineEvent) (an : List String) :
    (mkAssessment m fp tl an).reasons ≠ [] := by
  unfold mkAssessment
  dsimp only
  split
  · simp
  · rename_i hne
    simpa using hne

/-- C2 amended: for every input of the shapes the spec describes,
`analyze_file` returns a well-formed `RiskAssessment` and never raises —
*except* when the parsed timeline candidates mix timezone-aware and naive
datetimes, in which case the timeline sort raises `TypeError` (see
`C2_counterexample`). -/
theorem C2_no_raise_amended (md : Option Metadata) (fp : Option String)
    (fb : Option Metadata)
    (hm : dtValuesValid (md.getD [])) (hf : fbValid fb)
    (hmx : ¬ mixedTimeline (md.getD []) fb) :
    ∃ res, analyze_file md fp fb = .ok res ∧ WellFormedAssessment res := by
  have hmx' : ¬(2 ≤ (timeline_candidates (md.getD []) fb).length ∧
      (((timeline_candidates (md.getD []) fb).any fun c => c.dtv.aware) = true) ∧
      (((timeline_candidates (md.getD []) fb).any fun c => !c.dtv.aware) = true)) := hmx
  have hbt : build_timeline (md.getD []) fb =
      .ok ((insSort (timeline_candidates (md.getD []) fb)).map fun c =>
        ⟨c.event, c.raw⟩) := by
    simp only [build_timeline, pySortCands, Bind.bind, Except.bind]
    rw [if_neg hmx']
  have hda := detect_anomalies_ok hm hf hbt
  refine ⟨mkAssessment (md.getD []) fp
    ((insSort (timeline_candidates (md.getD []) fb)).map fun c => ⟨c.event, c.raw⟩)
    (chain_anomalies (md.getD []) ++ block_anomalies (md.getD [])), ?_, ?_⟩
  · simp only [analyze_file, Bind.bind, Except.bind]
    rw [hbt]
    dsimp only
    rw [hda]
  · exact ⟨mkAssessment_score_le _ _ _ _,
      by rw [mkAssessment_level]; exact score_to_level_mem _,
      mkAssessment_reasons_ne _ _ _ _, rfl⟩

/-- Witness for the amended C2 at a concrete input. -/
theorem C2_no_raise_amended_witness :
    ∃ res, analyze_file (some [("Author", Value.str "Alice")]) (some "C:/tmp/a.txt") none =
      .ok res ∧ WellFormedAssessment res :=
  C2_no_raise_amended (some [("Author", Value.str "Alice")]) (some "C:/tmp/a.txt") none
    (by intro p hp d hd
        simp only [Option.getD, List.mem_cons, List.not_mem_nil, or_false] at hp
        rw [hp] at hd
        cases hd)
    trivial
    (by intro hcon
        have := hcon.1
        revert this
        decide)

/-! ## C3: adding a field that satisfies a new rule -/

theorem has_any_key_mono {m ext : Metadata} {kws : List String}
    (h : has_any_key m kws = true) : has_any_key (m ++ ext) kws = true := by
  unfold has_any_key at h ⊢
  rw [List.any_append, h]
  rfl

theorem has_gps_mono {m ext : Metadata}
    (h : has_gps_coordinates m = true) : has_gps_coordinates (m ++ ext) = true := by
  unfold has_gps_coordinates at h ⊢
  rw [Bool.or_eq_true] at h ⊢
  rcases h with h | h
  · exact Or.inl (has_any_key_mono h)
  · right
    rw [List.any_append, h]
    rfl

theorem rules_checker_mono {r : RiskRule} (hr : r ∈ rules) (m ext : Metadata)
    (h : r.checker m = true) : r.checker (m ++ ext) = true := by
  fin_cases hr
  · exact has_gps_mono h
  · exact has_any_key_mono h
  · exact has_any_key_mono h
  · exact has_any_key_mono h
  · exact has_any_key_mono h

theorem filter_score_sum_mono (L : List RiskRule) (p q : RiskRule → Bool)
    (hpq : ∀ x ∈ L, p x = true → q x = true) :
    ((L.filter p).map fun r => r.score).sum ≤
      ((L.filter q).map fun r => r.score).sum := by
  induction L with
  | nil => exact le_refl _
  | cons x xs ih =>
    have ih' := ih fun a ha hp => hpq a (by simp [ha]) hp
    by_cases hp : p x = true
    · rw [List.filter_cons_of_pos hp, List.filter_cons_of_pos (hpq x (by simp) hp)]
      simp only [List.map_cons, List.sum_cons]
      omega
    · rw [List.filter_cons_of_neg (by simp [hp])]
      by_cases hq : q x = true
      · rw [List.filter_cons_of_pos hq]
        simp only [List.map_cons, List.sum_cons]
        omega
      · rw [List.filter_cons_of_neg (by simp [hq])]
        exact ih'

theorem filter_score_sum_add (L : List RiskRule) (p q : RiskRule → Bool)
    (r : RiskRule) (hpq : ∀ x ∈ L, p x = true → q x = true)
    (hr : r ∈ L) (hp : p r = false) (hq : q r = true) :
    ((L.filter p).map fun x => x.score).sum + r.score ≤
      ((L.filter q).map fun x => x.score).sum := by
  induction L with
  | nil => cases hr
  | cons x xs ih =>
    rcases List.mem_cons.mp hr with rfl | hr'
    · rw [List.filter_cons_of_neg (by simp [hp]), List.filter_cons_of_pos hq]
      simp only [List.map_cons, List.sum_cons]
      have := filter_score_sum_mono xs p q fun a ha => hpq a (by simp [ha])
      omega
    · have ih' := ih (fun a ha => hpq a (by simp [ha])) hr'
      by_cases hpx : p x = true
      · rw [List.filter_cons_of_pos hpx, List.filter_cons_of_pos (hpq x (by simp) hpx)]
        simp only [List.map_cons, List.sum_cons]
        omega
      · rw [List.filter_cons_of_neg (by simp [hpx])]
        by_cases hqx : q x = true
        · rw [List.filter_cons_of_pos hqx]
          simp only [List.map_cons, List.sum_cons]
          omega
        · rw [List.filter_cons_of_neg (by simp [hqx])]
          exact ih'

theorem chain_sources_eq (m : Metadata) :
    chain_sources m = m.flatMap fun p =>
      if chainKey p.1 = true then chainTokens p.2 else [] := by
  suffices h : ∀ acc : List String,
      m.foldl (fun acc p => if chainKey p.1 then acc ++ chainTokens p.2 else acc) acc =
        acc ++ m.flatMap fun p => if chainKey p.1 = true then chainTokens p.2 else [] by
    simpa using h []
  induction m with
  | nil => intro acc; simp
  | cons p ps ih =>
    intro acc
    rw [List.foldl_cons, List.flatMap_cons]
    by_cases hk : chainKey p.1 = true
    · rw [if_pos hk, if_pos hk, ih, List.append_assoc]
    · rw [if_neg hk, if_neg hk, ih]
      simp

theorem dedupFirst_length_mono (seen xs ys : List String) :
    (dedupFirst seen xs).length ≤ (dedupFirst seen (xs ++ ys)).length := by
  induction xs generalizing seen with
  | nil => simp [dedupFirst]
  | cons x xs ih =>
    rw [List.cons_append, dedupFirst, dedupFirst]
    by_cases hx : x ∈ seen
    · rw [if_pos hx, if_pos hx]
      exact ih seen
    · rw [if_neg hx, if_neg hx]
      simpa using ih (x :: seen)

theorem chain_anomalies_mono {m ext : Metadata}
    (h : chain_anomalies m ≠ []) : chain_anomalies (m ++ ext) ≠ [] := by
  unfold chain_anomalies at h ⊢
  split at h
  · rename_i hlen
    rw [if_pos ?_]
    · simp
    · calc (2 : Nat) ≤ (dedupFirst [] (chain_sources m)).length := hlen
        _ ≤ (dedupFirst [] (chain_sources (m ++ ext))).length := by
          rw [chain_sources_eq m, chain_sources_eq (m ++ ext), List.flatMap_append]
          exact dedupFirst_length_mono [] _ _
  · exact absurd rfl h

theorem block_anomalies_mono {m ext : Metadata}
    (h : block_anomalies m ≠ []) : block_anomalies (m ++ ext) ≠ [] := by
  unfold block_anomalies at h ⊢
  split at h
  · rename_i hlen
    rw [if_pos ?_]
    · simp
    · calc (3 : Nat) ≤ block_count m := hlen
        _ ≤ block_count (m ++ ext) := by
          unfold block_count
          rw [List.filter_append, List.length_append]
          omega
  · exact absurd rfl h

theorem mkAssessment_score (m : Metadata) (fp : Option String)
    (tl : List TimelineEvent) (an : List String) :
    (mkAssessment m fp tl an).risk_score =
      min (((rules.filter fun r => r.checker m).map fun r => r.score).sum +
        (if an.isEmpty then 0 else 20)) 100 := by
  unfold mkAssessment
  dsimp only
  by_cases h : an.isEmpty <;> simp [h]

theorem dtValuesValid_append {m : Metadata} {k : String} {v : Value}
    (hm : dtValuesValid m) (hv : ∀ d : DT, v = Value.dt d → d.valid = true) :
    dtValuesValid (m ++ [(k, v)]) := by
  intro p hp d hd
  rcases List.mem_append.mp hp with hp | hp
  · exact hm p hp d hd
  · simp only [List.mem_singleton] at hp
    rw [hp] at hd
    exact hv d hd

/-- C3 amended: adding one fresh field that satisfies a previously-unmatched
rule never decreases the risk score, and raises it by *at least* that
rule's score unless the total is clamped at 100 (the increase exceeds the
rule's score when the new field also satisfies other unmatched rules or
newly triggers an anomaly; see `C3_counterexample`). -/
theorem C3_score_mono_amended (m : Metadata) (k : String) (v : Value)
    (r : RiskRule) (fp : Option String) (fb : Option Metadata)
    (A B : RiskAssessment)
    (hr : r ∈ rules)
    (_hfresh : ∀ p ∈ m, p.1 ≠ k)
    (hnew : r.checker m = false)
    (hnow : r.checker (m ++ [(k, v)]) = true)
    (hmA : dtValuesValid m)
    (hvV : ∀ d : DT, v = Value.dt d → d.valid = true)
    (hfb : fbValid fb)
    (hA : analyze_file (some m) fp fb = .ok A)
    (hB : analyze_file (some (m ++ [(k, v)])) fp fb = .ok B) :
    A.risk_score ≤ B.risk_score ∧
    min (A.risk_score + r.score) 100 ≤ B.risk_score := by
  obtain ⟨tlA, anA, hbtA, hdaA, hAe⟩ := analyze_file_ok_elim hA
  obtain ⟨tlB, anB, hbtB, hdaB, hBe⟩ := analyze_file_ok_elim hB
  simp only [Option.getD_some] at hbtA hdaA hAe hbtB hdaB hBe
  have hmB : dtValuesValid (m ++ [(k, v)]) := dtValuesValid_append hmA hvV
  have hanA : anA = chain_anomalies m ++ block_anomalies m := by
    have h2 := detect_anomalies_ok hmA hfb hbtA
    rw [hdaA] at h2
    exact Except.ok.inj h2
  have hanB : anB = chain_anomalies (m ++ [(k, v)]) ++ block_anomalies (m ++ [(k, v)]) := by
    have h2 := detect_anomalies_ok hmB hfb hbtB
    rw [hdaB] at h2
    exact Except.ok.inj h2
  subst hAe hBe hanA hanB
  rw [mkAssessment_score, mkAssessment_score]
  have hsum : ((rules.filter fun x => x.checker m).map fun x => x.score).sum + r.score ≤
      ((rules.filter fun x => x.checker (m ++ [(k, v)])).map fun x => x.score).sum :=
    filter_score_sum_add rules _ _ r
      (fun x hx hp => rules_checker_mono hx m [(k, v)] hp) hr hnew hnow
  have hnonempty : (chain_anomalies m ++ block_anomalies m) ≠ [] →
      (chain_anomalies (m ++ [(k, v)]) ++ block_anomalies (m ++ [(k, v)])) ≠ [] := by
    intro h0 hcon
    rw [List.append_eq_nil] at hcon
    rcases show chain_anomalies m ≠ [] ∨ block_anomalies m ≠ [] by
        by_contra hc
        push_neg at hc
        exact h0 (by rw [hc.1, hc.2]; rfl) with hx | hx
    · exact chain_anomalies_mono hx hcon.1
    · exact block_anomalies_mono hx hcon.2
  have hbonus : (if (chain_anomalies m ++ block_anomalies m).isEmpty then 0 else 20) ≤
      (if (chain_anomalies (m ++ [(k, v)]) ++
        block_anomalies (m ++ [(k, v)])).isEmpty then 0 else (20 : Nat)) := by
    by_cases h0 : (chain_anomalies m ++ block_anomalies m).isEmpty = true
    · rw [if_pos h0]
      exact Nat.zero_le _
    · rw [if_neg h0, if_neg ?_]
      intro hcon
      exact hnonempty (fun hh => h0 (by rw [hh]; rfl)) (List.isEmpty_iff.mp hcon)
  omega

/-- The second installed rule, `author_identity`. -/
def author_rule : RiskRule := rules[1]

/-- The assessment of the single-field map used in the C3 counterexample. -/
def cexAssessment : RiskAssessment :=
  { file_path := "", file_name := "", risk_score := 33, risk_level := "MEDIUM",
    reasons := ["Author/user identity metadata is present.",
                "Software/editor processing traces are present."],
    matched_rules := ["author_identity", "editing_traces"],
    timeline := [], anomalies := [], event_count := 0 }

/-- Counterexample to C3 as stated: starting from the empty map, the added
field `user software` satisfies the previously-unmatched `author_identity`
rule (score 18), but the risk score rises from 0 to 33 — not by exactly 18,
although the total is far from the 100 clamp — because the same field also
satisfies `editing_traces`. -/
theorem C3_counterexample :
    author_rule.score = 18 ∧
    author_rule.checker [] = false ∧
    author_rule.checker [("user software", Value.str "x")] = true ∧
    analyze_file (some []) none none = .ok emptyAssessment ∧
    analyze_file (some [("user software", Value.str "x")]) none none = .ok cexAssessment ∧
    emptyAssessment.risk_score = 0 ∧
    cexAssessment.risk_score = 33 ∧
    emptyAssessment.risk_score + author_rule.score ≤ 100 ∧
    cexAssessment.risk_score ≠ emptyAssessment.risk_score + author_rule.score := by
  refine ⟨rfl, by decide, by decide, rfl, by decide, rfl, rfl, by decide, by decide⟩

/-- Witness for the amended C3 at the counterexample input. -/
theorem C3_score_mono_amended_witness :
    emptyAssessment.risk_score ≤ cexAssessment.risk_score ∧
    min (emptyAssessment.risk_score + author_rule.score) 100 ≤ cexAssessment.risk_score :=
  C3_score_mono_amended [] "user software" (Value.str "x") author_rule none none
    emptyAssessment cexAssessment
    (List.getElem_mem _)
    (by intro p hp; cases hp)
    (by decide) (by decide)
    (by intro p hp; cases hp)
    (by intro d hd; cases hd)
    trivial rfl (by decide)

/-! ## C6 and C10: batch aggregation invariants -/

theorem analyze_file_level_mem {md : Option Metadata} {fp : Option String}
    {fb : Option Metadata} {res : RiskAssessment}
    (h : analyze_file md fp fb = .ok res) :
    res.risk_level ∈ ["LOW", "MEDIUM", "HIGH"] := by
  obtain ⟨tl, an, _, _, hres⟩ := analyze_file_ok_elim h
  subst hres
  rw [mkAssessment_level]
  exact score_to_level_mem _

theorem bumpCounts_inv {a b c : Nat} {lvl : String}
    (hl : lvl ∈ ["LOW", "MEDIUM", "HIGH"]) :
    ∃ a2 b2 c2, bumpCounts [("LOW", a), ("MEDIUM", b), ("HIGH", c)] lvl =
      [("LOW", a2), ("MEDIUM", b2), ("HIGH", c2)] ∧ a2 + b2 + c2 = a + b + c + 1 := by
  fin_cases hl
  · exact ⟨a + 1, b, c, by simp [bumpCounts], by omega⟩
  · exact ⟨a, b + 1, c, by simp [bumpCounts], by omega⟩
  · exact ⟨a, b, c + 1, by simp [bumpCounts], by omega⟩

theorem bumpLevel_ok {s : FolderStat} {lvl : String}
    (hl : lvl ∈ ["LOW", "MEDIUM", "HIGH"]) :
    ∃ s2, bumpLevel s lvl = .ok s2 ∧ s2.total = s.total ∧
      s2.low + s2.medium + s2.high = s.low + s.medium + s.high + 1 := by
  fin_cases hl
  · exact ⟨{ s with low := s.low + 1 }, by simp [bumpLevel], rfl,
      by show s.low + 1 + s.medium + s.high = _; omega⟩
  · exact ⟨{ s with medium := s.medium + 1 }, by simp [bumpLevel], rfl,
      by show s.low + (s.medium + 1) + s.high = _; omega⟩
  · exact ⟨{ s with high := s.high + 1 }, by simp [bumpLevel], rfl,
      by show s.low + s.medium + (s.high + 1) = _; omega⟩

theorem bumpFolderList_inv {folder lvl : String}
    {fs out : List (String × FolderStat)}
    (hl : lvl ∈ ["LOW", "MEDIUM", "HIGH"])
    (heach : ∀ p ∈ fs, p.2.total = p.2.low + p.2.medium + p.2.high)
    (h : bumpFolderList folder lvl fs = .ok out) :
    out.map Prod.fst = fs.map Prod.fst ∧
    (out.map fun p => p.2.total).sum =
      (fs.map fun p => p.2.total).sum + (fs.filter fun p => p.1 = folder).length ∧
    (∀ q ∈ out, q.2.total = q.2.low + q.2.medium + q.2.high) := by
  induction fs generalizing out with
  | nil =>
    rw [bumpFolderList] at h
    cases h
    simp
  | cons p rest ih =>
    rw [bumpFolderList] at h
    split at h
    · rename_i hp
      obtain ⟨s2, hs2, hs2t, hs2s⟩ := bumpLevel_ok (s := { p.2 with total := p.2.total + 1 }) hl
      rw [hs2] at h
      simp only [Bind.bind, Except.bind] at h
      cases hrest : bumpFolderList folder lvl rest with
      | error u => rw [hrest] at h; cases h
      | ok rest2 =>
        rw [hrest] at h
        cases h
        obtain ⟨h1, h2, h3⟩ := ih (fun q hq => heach q (by simp [hq])) hrest
        have hs2t2 : s2.total = p.2.total + 1 := hs2t
        have hs2s2 : s2.low + s2.medium + s2.high =
            p.2.low + p.2.medium + p.2.high + 1 := hs2s
        refine ⟨by simp [h1], ?_, ?_⟩
        · have hfl : ((p :: rest).filter fun q => q.1 = folder) =
              p :: (rest.filter fun q => q.1 = folder) := by
            simp [List.filter_cons, hp]
          simp only [List.map_cons, List.sum_cons, hfl, List.length_cons, h2]
          omega
        · intro q hq
          rcases List.mem_cons.mp hq with rfl | hq
          · have hp2 := heach p (by simp)
            show s2.total = s2.low + s2.medium + s2.high
            omega
          · exact h3 q hq
    · rename_i hp
      simp only [Bind.bind, Except.bind] at h
      cases hrest : bumpFolderList folder lvl rest with
      | error u => rw [hrest] at h; cases h
      | ok rest2 =>
        rw [hrest] at h
        cases h
        obtain ⟨h1, h2, h3⟩ := ih (fun q hq => heach q (by simp [hq])) hrest
        refine ⟨by simp [h1], ?_, ?_⟩
        · have hfl : ((p :: rest).filter fun q => q.1 = folder) =
              rest.filter fun q => q.1 = folder := by
            simp [List.filter_cons, hp]
          simp only [List.map_cons, List.sum_cons, hfl, h2]
          omega
        · intro q hq
          rcases List.mem_cons.mp hq with rfl | hq
          · exact heach q (by simp)
          · exact h3 q hq

theorem filter_key_single {fs : List (String × FolderStat)} {folder : String}
    (hnd : (fs.map Prod.fst).Nodup) (hmem : (fs.any fun p => p.1 = folder) = true) :
    (fs.filter fun p => p.1 = folder).length = 1 := by
  induction fs with
  | nil => simp at hmem
  | cons p rest ih =>
    rw [List.map_cons, List.nodup_cons] at hnd
    by_cases hp : p.1 = folder
    · have hfl : ((p :: rest).filter fun q => q.1 = folder) =
          p :: (rest.filter fun q => q.1 = folder) := by
        simp [List.filter_cons, hp]
      rw [hfl]
      have hnone : (rest.filter fun q => q.1 = folder) = [] := by
        rw [List.filter_eq_nil_iff]
        intro q hq
        simp only [decide_eq_true_eq]
        intro hqf
        exact hnd.1 (hp ▸ hqf ▸ List.mem_map_of_mem Prod.fst hq)
      simp [hnone]
    · have hfl : ((p :: rest).filter fun q => q.1 = folder) =
          rest.filter fun q => q.1 = folder := by
        simp [List.filter_cons, hp]
      rw [hfl]
      refine ih hnd.2 ?_
      simpa [hp] using hmem

theorem updateFolders_inv {fs fs2 : List (String × FolderStat)} {folder lvl : String}
    (hl : lvl ∈ ["LOW", "MEDIUM", "HIGH"])
    (hnd : (fs.map Prod.fst).Nodup)
    (heach : ∀ p ∈ fs, p.2.total = p.2.low + p.2.medium + p.2.high)
    (h : updateFolders fs folder lvl = .ok fs2) :
    (fs2.map Prod.fst).Nodup ∧
    (fs2.map fun p => p.2.total).sum = (fs.map fun p => p.2.total).sum + 1 ∧
    (∀ p ∈ fs2, p.2.total = p.2.low + p.2.medium + p.2.high) := by
  unfold updateFolders at h
  dsimp only at h
  by_cases hin : (fs.any fun p => p.1 = folder) = true
  · rw [if_pos hin] at h
    obtain ⟨hkeys, hsum, heach2⟩ := bumpFolderList_inv hl heach h
    refine ⟨by rw [hkeys]; exact hnd, ?_, heach2⟩
    rw [hsum, filter_key_single hnd hin]
  · rw [if_neg hin] at h
    have hnotin : folder ∉ fs.map Prod.fst := by
      intro hcon
      rw [List.mem_map] at hcon
      obtain ⟨p, hp, hpf⟩ := hcon
      exact hin (List.any_eq_true.mpr ⟨p, hp, by simp [hpf]⟩)
    have hnd0 : ((fs ++ [(folder, (⟨0, 0, 0, 0⟩ : FolderStat))]).map Prod.fst).Nodup := by
      rw [List.map_append]
      simp only [List.map_cons, List.map_nil]
      rw [List.nodup_append]
      refine ⟨hnd, by simp, ?_⟩
      intro a ha hb
      simp only [List.mem_singleton] at hb
      rw [hb] at ha
      exact hnotin ha
    have heach0 : ∀ p ∈ fs ++ [(folder, (⟨0, 0, 0, 0⟩ : FolderStat))],
        p.2.total = p.2.low + p.2.medium + p.2.high := by
      intro p hp
      rcases List.mem_append.mp hp with hp | hp
      · exact heach p hp
      · simp only [List.mem_singleton] at hp
        rw [hp]
        rfl
    obtain ⟨hkeys, hsum, heach2⟩ := bumpFolderList_inv hl heach0 h
    have hin0 : ((fs ++ [(folder, (⟨0, 0, 0, 0⟩ : FolderStat))]).any fun p => p.1 = folder)
        = true := by
      rw [List.any_append]
      simp
    refine ⟨by rw [hkeys]; exact hnd0, ?_, heach2⟩
    rw [hsum, filter_key_single hnd0 hin0, List.map_append, List.sum_append]
    simp

/-- The loop invariant of `analyze_batch`. -/
def batchInv (st : BatchState) : Prop :=
  (∃ a b c, st.risk_counts = [("LOW", a), ("MEDIUM", b), ("HIGH", c)] ∧
    a + b + c = st.results.length) ∧
  (st.folders.map Prod.fst).Nodup ∧
  (st.folders.map fun p => p.2.total).sum = st.results.length ∧
  ∀ p ∈ st.folders, p.2.total = p.2.low + p.2.medium + p.2.high

theorem batchStep_inv {st st2 : BatchState} {e : BatchEntry}
    (h : batchStep st e = .ok st2) (hinv : batchInv st) :
    batchInv st2 ∧ st2.results.length = st.results.length + 1 := by
  unfold batchStep at h
  simp only [Bind.bind, Except.bind] at h
  cases hi : analyze_file e.metadata (some e.file_path) none with
  | error u => rw [hi] at h; cases h
  | ok item =>
    rw [hi] at h
    dsimp only at h
    cases hu : updateFolders st.folders
        (if e.file_path = "" then "Unknown" else dirname e.file_path) item.risk_level with
    | error u => rw [hu] at h; cases h
    | ok fs2 =>
      rw [hu] at h
      cases h
      have hl := analyze_file_level_mem hi
      obtain ⟨⟨a, b, c, hrceq, habc⟩, hnd, hsum, heach⟩ := hinv
      obtain ⟨hnd2, hsum2, heach2⟩ := updateFolders_inv hl hnd heach hu
      obtain ⟨a2, b2, c2, hbc, habc2⟩ := bumpCounts_inv (a := a) (b := b) (c := c) hl
      have hlen : (st.results ++ [item]).length = st.results.length + 1 := by
        rw [List.length_append]
        rfl
      refine ⟨⟨⟨a2, b2, c2, ?_, ?_⟩, hnd2, ?_, heach2⟩, hlen⟩
      · show bumpCounts st.risk_counts item.risk_level = _
        rw [hrceq]
        exact hbc
      · show a2 + b2 + c2 = (st.results ++ [item]).length
        rw [hlen]
        omega
      · show (fs2.map fun p => p.2.total).sum = (st.results ++ [item]).length
        rw [hsum2, hsum, hlen]

theorem batch_fold_inv (entries : List BatchEntry) :
    ∀ st st2, entries.foldlM batchStep st = .ok st2 → batchInv st →
      batchInv st2 ∧ st2.results.length = st.results.length + entries.length := by
  induction entries with
  | nil =>
    intro st st2 h hinv
    have hst : st = st2 := by simpa [List.foldlM, Pure.pure, Except.pure] using h
    subst hst
    exact ⟨hinv, by simp⟩
  | cons e es ih =>
    intro st st2 h hinv
    rw [List.foldlM_cons] at h
    simp only [Bind.bind, Except.bind] at h
    cases hs : batchStep st e with
    | error u => rw [hs] at h; cases h
    | ok st1 =>
      rw [hs] at h
      obtain ⟨hinv1, hlen1⟩ := batchStep_inv hs hinv
      obtain ⟨hinv2, hlen2⟩ := ih st1 st2 h hinv1
      refine ⟨hinv2, ?_⟩
      rw [hlen2, hlen1, List.length_cons]
      omega

theorem analyze_batch_ok_elim {entries : List BatchEntry} {s : BatchSummary}
    (h : analyze_batch entries = .ok s) :
    ∃ st : BatchState,
      entries.foldlM batchStep ⟨[], [("LOW", 0), ("MEDIUM", 0), ("HIGH", 0)], []⟩ = .ok st ∧
      s = ⟨st.results.length, st.risk_counts, st.folders, maxByScore st.results,
        st.results⟩ := by
  unfold analyze_batch at h
  simp only [Bind.bind, Except.bind] at h
  cases hs : entries.foldlM batchStep ⟨[], [("LOW", 0), ("MEDIUM", 0), ("HIGH", 0)], []⟩ with
  | error u => rw [hs] at h; cases h
  | ok st =>
    rw [hs] at h
    cases h
    exact ⟨st, rfl, rfl⟩

theorem batchInv_start : batchInv ⟨[], [("LOW", 0), ("MEDIUM", 0), ("HIGH", 0)], []⟩ :=
  ⟨⟨0, 0, 0, rfl, rfl⟩, by simp, rfl, by intro p hp; cases hp⟩

/-- C6: for every successful batch call, the sum of the risk-count values,
the number of input entries and the number of results all coincide, and the
count map carries exactly the three level labels (present even at zero). -/
theorem C6_batch_count_conservation (entries : List BatchEntry) (s : BatchSummary)
    (h : analyze_batch entries = .ok s) :
    s.total_files = entries.length ∧
    s.results.length = entries.length ∧
    (s.risk_counts.map fun p => p.2).sum = entries.length ∧
    s.risk_counts.map Prod.fst = ["LOW", "MEDIUM", "HIGH"] := by
  obtain ⟨st, hs, hse⟩ := analyze_batch_ok_elim h
  obtain ⟨⟨a, b, c, hrceq, habc⟩, _, _, _⟩ :=
    (batch_fold_inv entries _ st hs batchInv_start).1
  have hlen := (batch_fold_inv entries _ st hs batchInv_start).2
  subst hse
  dsimp only
  rw [hrceq]
  simp only [List.map_cons, List.map_nil, List.sum_cons, List.sum_nil]
  refine ⟨by simpa using hlen, by simpa using hlen, ?_, trivial⟩
  have : st.results.length = entries.length := by simpa using hlen
  omega

/-- Witness for C6 at the empty batch. -/
theorem C6_batch_count_conservation_witness :
    (⟨0, [("LOW", 0), ("MEDIUM", 0), ("HIGH", 0)], [], none, []⟩ :
        BatchSummary).total_files = ([] : List BatchEntry).length ∧
    (⟨0, [("LOW", 0), ("MEDIUM", 0), ("HIGH", 0)], [], none, []⟩ :
        BatchSummary).results.length = ([] : List BatchEntry).length ∧
    ((⟨0, [("LOW", 0), ("MEDIUM", 0), ("HIGH", 0)], [], none, []⟩ :
        BatchSummary).risk_counts.map fun p => p.2).sum = ([] : List BatchEntry).length ∧
    (⟨0, [("LOW", 0), ("MEDIUM", 0), ("HIGH", 0)], [], none, []⟩ :
        BatchSummary).risk_counts.map Prod.fst = ["LOW", "MEDIUM", "HIGH"] :=
  C6_batch_count_conservation [] _ (by decide)

/-- C10: in every successful batch summary each folder's total equals the
sum of its three per-level counters, and the folder totals sum to
`total_files`. -/
theorem C10_folder_conservation (entries : List BatchEntry) (s : BatchSummary)
    (h : analyze_batch entries = .ok s) :
    (∀ p ∈ s.folders, p.2.total = p.2.low + p.2.medium + p.2.high) ∧
    (s.folders.map fun p => p.2.total).sum = s.total_files := by
  obtain ⟨st, hs, hse⟩ := analyze_batch_ok_elim h
  obtain ⟨_, _, hsum, heach⟩ := (batch_fold_inv entries _ st hs batchInv_start).1
  subst hse
  exact ⟨heach, hsum⟩

/-- The summary of the one-entry batch used as the C10 witness. -/
def oneEntrySummary : BatchSummary :=
  { total_files := 1
    risk_counts := [("LOW", 1), ("MEDIUM", 0), ("HIGH", 0)]
    folders := [("C:/A", ⟨1, 1, 0, 0⟩)]
    highest_risk := some
      { file_path := "C:/A/f.txt", file_name := "f.txt", risk_score := 0,
        risk_level := "LOW",
        reasons := ["No high-sensitivity metadata indicators were detected."],
        matched_rules := [], timeline := [], anomalies := [], event_count := 0 }
    results :=
      [{ file_path := "C:/A/f.txt", file_name := "f.txt", risk_score := 0,
         risk_level := "LOW",
         reasons := ["No high-sensitivity metadata indicators were detected."],
         matched_rules := [], timeline := [], anomalies := [], event_count := 0 }] }

/-- Witness for C10 at a one-entry batch. -/
theorem C10_folder_conservation_witness :
    (∀ p ∈ oneEntrySummary.folders, p.2.total = p.2.low + p.2.medium + p.2.high) ∧
    (oneEntrySummary.folders.map fun p => p.2.total).sum = oneEntrySummary.total_files :=
  C10_folder_conservation [⟨"C:/A/f.txt", some []⟩] oneEntrySummary (by decide)

end MetaAnalyzer
